import Mathlib

/-
  Verification of the procedural tree-growth simulation (model.py).

  Shallow embedding notes:
  * Python floats are modelled as exact rationals (ℚ); the growth-control
    arithmetic of the source (fixed increments 0.001 and 0.00001, products
    with tunable constants, comparisons) is exact in this model.
  * constants.py is not part of the sources; the tunable constants
    (MAX_DEPTH, MIN_EXTEND_RADIUS, LEAF_GROWING_MAX_RADIUS,
    BRANCH_TOP_RADIUS, BRANCH_SPLIT_RADIUS) are a parameter structure
    Consts, and the OBJECT_* / EVENT_* tags are modelled from the spec as
    distinct natural-number tags (only their distinctness is used).
  * Python object identity is modelled by natural-number ids in a store
    (ℕ → Option Entity); `self.split.radius = ...` becomes a store write.
  * Geometric placement (position / eulers of an entity) is elided from the
    growth model: no conditional in Branch.update / Leaf.update /
    Scene.update reads position or eulers, so the growth behaviour is
    independent of them.  The 4x4 transform composition of
    Entity/Leaf/Branch.get_model_transform is modelled separately below,
    parameterised by the cosine/sine values of the Euler angles.
  * random.random() is modelled as an oracle stream ℕ → ℚ together with a
    cursor counting how many draws were made; random.randint draws only
    influence elided geometry.
  * A Python exception is modelled as the result none: ZeroDivisionError
    in attempt_grow_leaf (1 / self.radius), ValueError of list.remove and
    KeyError of dict lookup in the event-application phase of
    Scene.update.
-/

-- The rational-number operations of Batteries are marked irreducible,
-- which blocks concrete evaluation of the model by decide; restore
-- default reducibility for them inside this development.
set_option allowUnsafeReducibility true

attribute [local semireducible] Rat.add Rat.mul Rat.sub Rat.neg Rat.div Rat.inv Rat.ofScientific

/-- The tunable constants of constants.py (not in the sources); they are
kept abstract and theorems state the hypotheses they need. -/
structure Consts where
  MAX_DEPTH : ℕ
  MIN_EXTEND_RADIUS : ℚ
  LEAF_GROWING_MAX_RADIUS : ℚ
  BRANCH_TOP_RADIUS : ℚ
  BRANCH_SPLIT_RADIUS : ℚ
deriving DecidableEq

/-- Modelled from the spec: the OBJECT_* named constants of constants.py;
only their distinctness matters. -/
def OBJECT_CUBE : ℕ := 0

/-- Modelled from the spec: object-type tag for leaves. -/
def OBJECT_LEAF : ℕ := 1

/-- Modelled from the spec: object-type tag for branches. -/
def OBJECT_BRANCH : ℕ := 2

/-- Modelled from the spec: the Spawn event tag (EVENT_NEW). -/
def EVENT_NEW : ℕ := 0

/-- Modelled from the spec: the Remove event tag (EVENT_DEL). -/
def EVENT_DEL : ℕ := 1

/-- Event class of model.py: a type tag and the entity it refers to
(the entity is an object reference in Python, an id here). -/
structure Event where
  type : ℕ
  data : ℕ
deriving DecidableEq

/-- The tri-state split field of a Branch: None (not yet decided),
-1 (evaluated and rejected), or an owned child branch. -/
inductive SplitField where
  | noneYet : SplitField
  | rejected : SplitField
  | child (i : ℕ) : SplitField
deriving DecidableEq

/-- State of a Branch object (model.py, Branch.__init__): growth fields
plus the ownership links; position/eulers elided (see header). -/
structure Branch where
  radius : ℚ
  height : ℚ
  parent : Option ℕ
  above : Option ℕ
  split : SplitField
  leaves : List ℕ
  age : ℕ
  depth : ℕ
deriving DecidableEq

/-- State of a Leaf object (model.py, Leaf.__init__). -/
structure Leaf where
  age : ℤ
  dying : Bool
  branch : ℕ
deriving DecidableEq

/-- An entity of the scene: Cube, Leaf or Branch (the Player/camera is not
stored in the renderables registry and is modelled separately). -/
inductive Entity where
  | cube : Entity
  | leaf (l : Leaf) : Entity
  | branch (b : Branch) : Entity
deriving DecidableEq

/-- The objectType field set by each constructor. -/
def Entity.objectType : Entity → ℕ
  | .cube => OBJECT_CUBE
  | .leaf _ => OBJECT_LEAF
  | .branch _ => OBJECT_BRANCH

/-- The heap: object identity is a natural number id. -/
abbrev Store : Type := ℕ → Option Entity

/-- Python min on two rationals (kernel-computable, equal to min). -/
def pymin (a b : ℚ) : ℚ := if a ≤ b then a else b

/-- Python max on two rationals (kernel-computable, equal to max). -/
def pymax (a b : ℚ) : ℚ := if b ≤ a then a else b

/-- Write an entity at an id. -/
def Store.upd (st : Store) (i : ℕ) (e : Entity) : Store :=
  fun j => if j = i then some e else st j

/-- Leaf.fall_off of model.py. -/
def Leaf.fall_off (l : Leaf) : Leaf := { l with dying := true }

/-- The call self.leaves.pop().fall_off() acting on the store: set dying on
the object at id i if it is a leaf (in the source it always is). -/
def Store.fallOffAt (st : Store) (i : ℕ) : Store :=
  fun j => if j = i then
    match st i with
    | some (Entity.leaf l) => some (Entity.leaf l.fall_off)
    | e => e
  else st j

/-- An assignment child.radius = r acting on the store: update the radius
of the branch at id i (in the source the target is always a branch). -/
def Store.setRadiusAt (st : Store) (i : ℕ) (r : ℚ) : Store :=
  fun j => if j = i then
    match st i with
    | some (Entity.branch b) => some (Entity.branch { b with radius := r })
    | e => e
  else st j

/-- Branch.attempt_grow_wider of model.py: root basal thickening, leaf
shedding past LEAF_GROWING_MAX_RADIUS (list.pop takes the last element),
and proportional radius propagation to the split and above children. -/
def Branch.attempt_grow_wider (C : Consts) (b : Branch) (st : Store) :
    Branch × Store :=
  let b := if b.parent = none then { b with radius := b.radius + 1/100000 } else b
  let bs :=
    if b.radius > C.LEAF_GROWING_MAX_RADIUS ∧ b.leaves ≠ [] then
      match b.leaves.getLast? with
      | some i => ({ b with leaves := b.leaves.dropLast }, st.fallOffAt i)
      | none => (b, st)
    else (b, st)
  let b := bs.1
  let st := bs.2
  let st :=
    match b.split with
    | SplitField.child c => st.setRadiusAt c (b.radius * C.BRANCH_SPLIT_RADIUS)
    | _ => st
  let st :=
    match b.above with
    | some a => st.setRadiusAt a (b.radius * C.BRANCH_TOP_RADIUS)
    | none => st
  (b, st)

/-- A freshly constructed child branch (Branch.__init__ with radius=0,
height=0, parent=self). -/
def Branch.newChild (parentId : ℕ) (parentDepth : ℕ) : Branch :=
  { radius := 0, height := 0, parent := some parentId, above := none,
    split := SplitField.noneYet, leaves := [], age := 0,
    depth := parentDepth + 1 }

/-- Branch.attempt_extend of model.py: juvenile height growth by 0.001 per
tick, then a one-shot extension spawning the above child.  Returns the
updated branch, store, next fresh id, and whether the extension fired. -/
def Branch.attempt_extend (C : Consts) (i : ℕ) (b : Branch) (st : Store)
    (nid : ℕ) : Branch × Store × ℕ × Bool :=
  if b.height < 1 then
    ({ b with height := b.height + 1/1000 }, st, nid, false)
  else if b.above = none ∧ b.radius > C.MIN_EXTEND_RADIUS ∧ b.depth < C.MAX_DEPTH then
    ({ b with height := 1, above := some nid },
     st.upd nid (Entity.branch (Branch.newChild i b.depth)), nid + 1, true)
  else (b, st, nid, false)

/-- Branch.attempt_split of model.py: on the tri-state split field; a draw
of random.random() happens exactly when split is None and depth <
MAX_DEPTH (Python short-circuits the conjunction). -/
def Branch.attempt_split (C : Consts) (rng : ℕ → ℚ) (i : ℕ) (b : Branch)
    (st : Store) (nid rix : ℕ) : Branch × Store × ℕ × ℕ × Bool :=
  match b.split with
  | SplitField.noneYet =>
    if b.depth < C.MAX_DEPTH then
      if rng rix < (b.depth : ℚ) / 10 then
        ({ b with split := SplitField.child nid },
         st.upd nid (Entity.branch (Branch.newChild i b.depth)),
         nid + 1, rix + 1, true)
      else
        ({ b with split := SplitField.rejected }, st, nid, rix + 1, false)
    else
      ({ b with split := SplitField.rejected }, st, nid, rix, false)
  | SplitField.rejected =>
    if (b.depth : ℚ) > (C.MAX_DEPTH : ℚ) * (3/4) then
      ({ b with split := SplitField.noneYet }, st, nid, rix, false)
    else (b, st, nid, rix, false)
  | SplitField.child _ => (b, st, nid, rix, false)

/-- Branch.attempt_grow_leaf of model.py.  The guard evaluates
1 / self.radius, a ZeroDivisionError when radius = 0 (modelled as none);
self.above is tested last. -/
def Branch.attempt_grow_leaf (C : Consts) (i : ℕ) (b : Branch) (st : Store)
    (nid : ℕ) : Option (Branch × Store × ℕ × Bool) :=
  if b.radius < C.LEAF_GROWING_MAX_RADIUS then
    if b.radius = 0 then none
    else if (b.leaves.length : ℚ) < 1 / b.radius ∧ b.above ≠ none then
      some ({ b with leaves := b.leaves ++ [nid] },
            st.upd nid (Entity.leaf { age := 1, dying := false, branch := i }),
            nid + 1, true)
    else some (b, st, nid, false)
  else some (b, st, nid, false)

/-- Traversal state: store, next fresh id, random-stream cursor. -/
structure TState where
  st : Store
  nid : ℕ
  rix : ℕ

/-- Branch.update of model.py: thicken, then the first of
extend / split / foliate that fires emits the (single) event. -/
def Branch.update (C : Consts) (rng : ℕ → ℚ) (i : ℕ) (b : Branch)
    (ts : TState) : Option (TState × Option Event) :=
  let bs := b.attempt_grow_wider C ts.st
  let ext := bs.1.attempt_extend C i bs.2 ts.nid
  let b1 := ext.1
  let st1 := ext.2.1
  let nid1 := ext.2.2.1
  if ext.2.2.2 then
    some (⟨st1.upd i (Entity.branch b1), nid1, ts.rix⟩,
      match b1.above with
      | some a => some ⟨EVENT_NEW, a⟩
      | none => none)
  else
    let sp := b1.attempt_split C rng i st1 nid1 ts.rix
    let b2 := sp.1
    let st2 := sp.2.1
    let nid2 := sp.2.2.1
    let rix2 := sp.2.2.2.1
    if sp.2.2.2.2 then
      some (⟨st2.upd i (Entity.branch b2), nid2, rix2⟩,
        match b2.split with
        | SplitField.child c => some ⟨EVENT_NEW, c⟩
        | _ => none)
    else
      match b2.attempt_grow_leaf C i st2 nid2 with
      | none => none
      | some gl =>
        some (⟨gl.2.1.upd i (Entity.branch gl.1), gl.2.2.1, rix2⟩,
          if gl.2.2.2 then
            match gl.1.leaves.getLast? with
            | some a => some ⟨EVENT_NEW, a⟩
            | none => none
          else none)

/-- Leaf.update of model.py: grow while not dying, decay once dying, and
emit the removal exactly when age hits 0.  The Bool is whether
Event(EVENT_DEL, self) is returned. -/
def Leaf.update (l : Leaf) : Leaf × Bool :=
  if l.dying then
    let l' : Leaf := { l with age := l.age - 1 }
    (l', l'.age = 0)
  else ({ l with age := l.age + 1 }, false)

/-- Dispatch of object.update(rate) inside Scene.update, by the runtime
type of the object at id i.  Cube.update returns None and does nothing. -/
def Entity.update (C : Consts) (rng : ℕ → ℚ) (i : ℕ) (ts : TState) :
    Option (TState × Option Event) :=
  match ts.st i with
  | none => some (ts, none)
  | some Entity.cube => some (ts, none)
  | some (Entity.leaf l) =>
    let lu := l.update
    some (⟨ts.st.upd i (Entity.leaf lu.1), ts.nid, ts.rix⟩,
      if lu.2 then some ⟨EVENT_DEL, i⟩ else none)
  | some (Entity.branch b) => b.update C rng i ts

/-- The dispatch trace: for each visited id, the state the update observed
(the store entry at the moment the update was invoked). -/
abbrev Trace : Type := List (ℕ × Option Entity)

/-- The inner loop of Scene.update over one type bucket. -/
def traverseList (C : Consts) (rng : ℕ → ℚ) :
    List ℕ → TState → Option (TState × List Event × Trace)
  | [], ts => some (ts, [], [])
  | i :: rest, ts =>
    match Entity.update C rng i ts with
    | none => none
    | some (ts', ev) =>
      match traverseList C rng rest ts' with
      | none => none
      | some (ts'', evs, tr) =>
        some (ts'', (match ev with | some e => e :: evs | none => evs),
              (i, ts.st i) :: tr)

/-- The outer loop of Scene.update over self.renderables.items(). -/
def traverseBuckets (C : Consts) (rng : ℕ → ℚ) :
    List (ℕ × List ℕ) → TState → Option (TState × List Event × Trace)
  | [], ts => some (ts, [], [])
  | (_, l) :: rest, ts =>
    match traverseList C rng l ts with
    | none => none
    | some (ts', evs, tr) =>
      match traverseBuckets C rng rest ts' with
      | none => none
      | some (ts'', evs', tr') => some (ts'', evs ++ evs', tr ++ tr')

/-- dict insert-or-append: self.renderables[t].append(i) when the key t is
present (first matching key), else self.renderables[t] = [i] (a new key,
at the end in insertion order). -/
def appendNew : List (ℕ × List ℕ) → ℕ → ℕ → List (ℕ × List ℕ)
  | [], t, i => [(t, [i])]
  | (k, l) :: rest, t, i =>
    if k = t then (k, l ++ [i]) :: rest else (k, l) :: appendNew rest t i

/-- list.remove: delete the first occurrence (identity comparison for
these entities), ValueError (none) when absent. -/
def removeFirst : List ℕ → ℕ → Option (List ℕ)
  | [], _ => none
  | x :: rest, i =>
    if x = i then some rest else (removeFirst rest i).map (fun l => x :: l)

/-- self.renderables[t].remove(i): KeyError (none) when the key t is
absent, ValueError (none) when i is not in the bucket. -/
def removeFromBuckets : List (ℕ × List ℕ) → ℕ → ℕ → Option (List (ℕ × List ℕ))
  | [], _, _ => none
  | (k, l) :: rest, t, i =>
    if k = t then (removeFirst l i).map (fun l' => (k, l') :: rest)
    else (removeFromBuckets rest t i).map (fun r => (k, l) :: r)

/-- Application of one collected event in Scene.update (the second phase):
Spawn appends to the type bucket, Remove deletes from it. -/
def applyEvent (st : Store) (bks : List (ℕ × List ℕ)) (e : Event) :
    Option (List (ℕ × List ℕ)) :=
  if e.type = EVENT_NEW then
    match st e.data with
    | some ent => some (appendNew bks ent.objectType e.data)
    | none => none
  else if e.type = EVENT_DEL then
    match st e.data with
    | some ent => removeFromBuckets bks ent.objectType e.data
    | none => none
  else some bks

/-- Application of all collected events, in collection order. -/
def applyEvents (st : Store) : List Event → List (ℕ × List ℕ) →
    Option (List (ℕ × List ℕ))
  | [], bks => some bks
  | e :: rest, bks =>
    match applyEvent st bks e with
    | none => none
    | some bks' => applyEvents st rest bks'

/-- The scene registry: renderables buckets keyed by objectType (a dict in
insertion order), the heap, the next fresh id, and the random stream with
its cursor.  The camera is updated after event application in the source;
its update only recomputes derived direction vectors and is elided here
(spin_camera is modelled separately). -/
structure Scene where
  buckets : List (ℕ × List ℕ)
  store : Store
  nextId : ℕ
  rng : ℕ → ℚ
  rix : ℕ

/-- Scene.update of model.py: phase one traverses every bucket invoking
each entity's update and collecting the returned events; phase two applies
the events to the buckets.  Returns the updated scene and the dispatch
trace. -/
def Scene.update (C : Consts) (s : Scene) : Option (Scene × Trace) :=
  match traverseBuckets C s.rng s.buckets ⟨s.store, s.nextId, s.rix⟩ with
  | none => none
  | some (ts, evs, tr) =>
    match applyEvents ts.st evs s.buckets with
    | none => none
    | some bks =>
      some ({ buckets := bks, store := ts.st, nextId := ts.nid,
              rng := s.rng, rix := ts.rix }, tr)

/-- Scene.__init__ of model.py: a single root branch with radius 0.1 (and
the default height 1, depth 1, no parent). -/
def Scene.init (rng : ℕ → ℚ) : Scene :=
  { buckets := [(OBJECT_BRANCH, [0])],
    store := fun j => if j = 0 then
        some (Entity.branch
          { radius := 1/10, height := 1, parent := none, above := none,
            split := SplitField.noneYet, leaves := [], age := 0, depth := 1 })
      else none,
    nextId := 1, rng := rng, rix := 0 }

/-- One successful Scene.update step. -/
def SceneStep (C : Consts) (s s' : Scene) : Prop :=
  ∃ tr, Scene.update C s = some (s', tr)

/-- Scenes reachable from a scene by successful Scene.update steps. -/
def Reaches (C : Consts) : Scene → Scene → Prop :=
  Relation.ReflTransGen (SceneStep C)

/-- Camera euler angles (degrees): index 0 roll (unused), 1 pitch, 2 yaw. -/
structure Eulers where
  e0 : ℚ
  e1 : ℚ
  e2 : ℚ
deriving DecidableEq

/-- Scene.spin_camera of model.py: add the delta, adjust the yaw once by
360 if it left (0, 360), clamp the pitch to [-89, 89]. -/
def spin_camera (e d : Eulers) : Eulers :=
  let e : Eulers := ⟨e.e0 + d.e0, e.e1 + d.e1, e.e2 + d.e2⟩
  let e : Eulers :=
    if e.e2 < 0 then { e with e2 := e.e2 + 360 }
    else if e.e2 > 360 then { e with e2 := e.e2 - 360 }
    else e
  { e with e1 := pymin 89 (pymax (-89) e.e1) }

/-- A concrete choice of the tunable constants, used to instantiate the
general theorems on explicit scenes. -/
def demoC : Consts :=
  { MAX_DEPTH := 5, MIN_EXTEND_RADIUS := 1/100, LEAF_GROWING_MAX_RADIUS := 1/5,
    BRANCH_TOP_RADIUS := 7/10, BRANCH_SPLIT_RADIUS := 1/2 }

/-- A concrete random stream: every draw is 1/2. -/
def demoRng : ℕ → ℚ := fun _ => 1/2

/-- The initial scene over the demo stream. -/
def demoScene0 : Scene := Scene.init demoRng

/-- The scene after a successful update (identity if the update fails). -/
def stepScene (C : Consts) (s : Scene) : Scene :=
  match Scene.update C s with
  | some (s', _) => s'
  | none => s

/-- The visited-id list of one Scene.update call. -/
def visitedOf (C : Consts) (s : Scene) : Option (List ℕ) :=
  (Scene.update C s).map (fun out => out.2.map Prod.fst)

/-- The state that the update of entity i observed during one
Scene.update call (from the dispatch trace). -/
def observedEnt (C : Consts) (s : Scene) (i : ℕ) : Option Entity :=
  match Scene.update C s with
  | some (_, tr) => ((tr.find? (fun p => p.1 = i)).map Prod.snd).join
  | none => none

/-- Radius projection of an optional entity (0 when not a branch). -/
def entRadius : Option Entity → ℚ
  | some (Entity.branch b) => b.radius
  | _ => 0

/-- The scene after one tick from the initial scene. -/
def demoScene1 : Scene := stepScene demoC demoScene0

/-- A leaf as constructed by Branch.grow_leaf: age 1, not dying. -/
def leafInit : Leaf := { age := 1, dying := false, branch := 0 }

/-- Iterate Leaf.update n times (state part). -/
def leafTickN : Leaf → ℕ → Leaf
  | l, 0 => l
  | l, n + 1 => leafTickN l.update.1 n

/-- Whether the t-th update of a leaf (t counted from 1) returns the
Remove event. -/
def leafEmitsAt (l : Leaf) (t : ℕ) : Bool := (leafTickN l (t - 1)).update.2

-- sanity checks (concrete evaluation of the model)
example : (spin_camera ⟨0, 85, 0⟩ ⟨0, 10, 0⟩).e1 = 89 := by decide

example : (Leaf.update ⟨1, true, 0⟩).2 = true := by decide

example : (Leaf.update ⟨3, false, 0⟩).1.age = 4 := by decide

example : visitedOf demoC demoScene0 = some [0] := by decide

example : (Scene.update demoC demoScene0).map (fun out => out.1.buckets) =
    some [(OBJECT_BRANCH, [0, 1])] := by decide

-- growth-phase closed form of the leaf state
theorem leafTickN_growing (a : ℤ) (br : ℕ) (k : ℕ) :
    leafTickN ⟨a, false, br⟩ k = ⟨a + k, false, br⟩ := by
  induction k generalizing a with
  | zero => simp [leafTickN]
  | succ n ih =>
    rw [leafTickN]
    have : (Leaf.update ⟨a, false, br⟩).1 = ⟨a + 1, false, br⟩ := by
      simp [Leaf.update]
    rw [this, ih]
    congr 1
    push_cast
    ring

-- decay-phase closed form of the leaf state
theorem leafTickN_dying (a : ℤ) (br : ℕ) (k : ℕ) :
    leafTickN ⟨a, true, br⟩ k = ⟨a - k, true, br⟩ := by
  induction k generalizing a with
  | zero => simp [leafTickN]
  | succ n ih =>
    rw [leafTickN]
    have : (Leaf.update ⟨a, true, br⟩).1 = ⟨a - 1, true, br⟩ := by
      simp [Leaf.update]
    rw [this, ih]
    congr 1
    push_cast
    ring

/-- C6: leaf age strictly increases while not dying (and no event fires),
strictly decreases once dying with the Remove event returned exactly when
age moves from 1 to 0; and the end-to-end scenario: a leaf created with
age 1, grown for k ticks, then told to fall_off, returns the Remove event
on exactly the (k+1)-th subsequent update (its age at fall_off time) and
on no other update. -/
theorem spec_c6_leaf_lifecycle :
    (∀ l : Leaf, l.dying = false → l.update.1.age = l.age + 1 ∧ l.update.2 = false) ∧
    (∀ l : Leaf, l.dying = true → l.update.1.age = l.age - 1 ∧ (l.update.2 = true ↔ l.age = 1)) ∧
    (∀ k t : ℕ, 1 ≤ t →
      (leafEmitsAt (leafTickN leafInit k).fall_off t = true ↔ (t : ℤ) = (k : ℤ) + 1)) := by
  refine ⟨?_, ?_, ?_⟩
  · intro l hl
    simp [Leaf.update, hl]
  · intro l hl
    refine ⟨by simp [Leaf.update, hl], ?_⟩
    simp [Leaf.update, hl, sub_eq_zero]
  · intro k t ht
    have hgrow : leafTickN leafInit k = ⟨1 + k, false, 0⟩ := leafTickN_growing 1 0 k
    have hfall : (leafTickN leafInit k).fall_off = ⟨1 + k, true, 0⟩ := by
      rw [hgrow]; rfl
    rw [hfall]
    unfold leafEmitsAt
    rw [leafTickN_dying]
    simp [Leaf.update]
    omega

/-- Witness for C6 at concrete inputs. -/
theorem spec_c6_witness :
    ((Leaf.update ⟨5, false, 0⟩).1.age = 5 + 1 ∧ (Leaf.update ⟨5, false, 0⟩).2 = false) ∧
    (leafEmitsAt (leafTickN leafInit 2).fall_off 3 = true ↔ (3 : ℤ) = (2 : ℤ) + 1) :=
  ⟨spec_c6_leaf_lifecycle.1 ⟨5, false, 0⟩ rfl,
   spec_c6_leaf_lifecycle.2.2 2 3 (by decide)⟩

/-- C9 counterexample: a spin of +360 degrees of yaw from yaw 0 leaves the
yaw at 360, which is not in the half-open interval [0, 360): the code
adjusts the yaw by at most one step of 360 and only when it leaves
(0, 360), so the claimed wrap into [0, 360) fails. -/
theorem spec_c9_counterexample :
    (spin_camera ⟨0, 0, 0⟩ ⟨0, 0, 360⟩).e2 = 360 ∧
    ¬ ((spin_camera ⟨0, 0, 0⟩ ⟨0, 0, 360⟩).e2 < 360) := by
  constructor
  · decide
  · decide

/-- C9 amended: spin_camera always clamps the pitch into [-89, 89]; the
yaw is adjusted by at most one step of 360, which keeps it in the closed
interval [0, 360] (the endpoint 360 included) whenever the previous yaw
was in [0, 360] and the yaw delta is within one turn; and the end-to-end
scenario: spinning [0,10,0] from eulers [0,85,0] yields pitch exactly 89
(not 95). -/
theorem spec_c9_spin_camera (e d : Eulers) :
    (-89 ≤ (spin_camera e d).e1 ∧ (spin_camera e d).e1 ≤ 89) ∧
    (0 ≤ e.e2 → e.e2 ≤ 360 → -360 ≤ d.e2 → d.e2 ≤ 360 →
      0 ≤ (spin_camera e d).e2 ∧ (spin_camera e d).e2 ≤ 360) ∧
    spin_camera ⟨0, 85, 0⟩ ⟨0, 10, 0⟩ = ⟨0, 89, 0⟩ := by
  refine ⟨?_, ?_, by decide⟩
  · unfold spin_camera pymin pymax
    dsimp only
    split_ifs <;> (try dsimp only at *) <;> constructor <;> linarith
  · intro h1 h2 h3 h4
    unfold spin_camera pymin pymax
    dsimp only
    split_ifs <;> (try dsimp only at *) <;> constructor <;> linarith

/-- Witness for C9 at concrete inputs. -/
theorem spec_c9_witness :
    0 ≤ (spin_camera ⟨0, 0, 300⟩ ⟨0, 0, 100⟩).e2 ∧
    (spin_camera ⟨0, 0, 300⟩ ⟨0, 0, 100⟩).e2 ≤ 360 :=
  (spec_c9_spin_camera ⟨0, 0, 300⟩ ⟨0, 0, 100⟩).2.1
    (by decide) (by decide) (by decide) (by decide)

/-- A store holding a single leaf at id 5, used to exercise the
event-application phase on an entity absent from its bucket. -/
def absentLeafStore : Store :=
  fun j => if j = 5 then some (Entity.leaf ⟨3, false, 0⟩) else none

/-- C3 counterexample: applying Remove for an entity that is absent from
its type bucket is not a silent no-op: list.remove raises ValueError
(modelled as none), rather than returning the registry unchanged. -/
theorem spec_c3_counterexample :
    applyEvent absentLeafStore [(OBJECT_LEAF, [])] ⟨EVENT_DEL, 5⟩ = none ∧
    applyEvent absentLeafStore [(OBJECT_LEAF, [])] ⟨EVENT_DEL, 5⟩ ≠
      some [(OBJECT_LEAF, [])] := by
  constructor
  · decide
  · decide

-- list.remove deletes the first occurrence, found by id (identity)
theorem removeFirst_present (l1 l2 : List ℕ) (i : ℕ) (h : i ∉ l1) :
    removeFirst (l1 ++ i :: l2) i = some (l1 ++ l2) := by
  induction l1 with
  | nil => simp [removeFirst]
  | cons x rest ih =>
    have hx : x ≠ i := by
      intro hxi
      exact h (by simp [hxi])
    have hrest : i ∉ rest := fun hm => h (List.mem_cons_of_mem x hm)
    simp [removeFirst, hx, ih hrest]

-- list.remove on an absent element raises (none)
theorem removeFirst_absent (l : List ℕ) (i : ℕ) (h : i ∉ l) :
    removeFirst l i = none := by
  induction l with
  | nil => rfl
  | cons x rest ih =>
    have hx : x ≠ i := by
      intro hxi
      exact h (by simp [hxi])
    have hrest : i ∉ rest := fun hm => h (List.mem_cons_of_mem x hm)
    simp [removeFirst, hx, ih hrest]

/-- C3 amended: Remove(e) deletes the first occurrence of e from its type
bucket, comparing by id (object identity: these entity classes define no
value equality), but a Remove for an entity absent from its bucket is an
error, not a silent no-op: list.remove raises ValueError (and a missing
type bucket raises KeyError), both modelled as none. -/
theorem spec_c3_remove_semantics :
    (∀ (l : List ℕ) (i : ℕ), i ∉ l → removeFirst l i = none) ∧
    (∀ (l1 l2 : List ℕ) (i : ℕ), i ∉ l1 →
      removeFirst (l1 ++ i :: l2) i = some (l1 ++ l2)) ∧
    (∀ (st : Store) (e : Event) (ent : Entity) (l1 l2 : List ℕ),
      e.type = EVENT_DEL → st e.data = some ent → e.data ∉ l1 →
      applyEvent st [(ent.objectType, l1 ++ e.data :: l2)] e =
        some [(ent.objectType, l1 ++ l2)]) ∧
    (∀ (st : Store) (e : Event) (ent : Entity) (l : List ℕ),
      e.type = EVENT_DEL → st e.data = some ent → e.data ∉ l →
      applyEvent st [(ent.objectType, l)] e = none) := by
  refine ⟨removeFirst_absent, removeFirst_present, ?_, ?_⟩
  · intro st e ent l1 l2 htype hst hnotin
    simp [applyEvent, htype, hst, removeFromBuckets, EVENT_NEW, EVENT_DEL,
      removeFirst_present l1 l2 e.data hnotin]
  · intro st e ent l htype hst hnotin
    simp [applyEvent, htype, hst, removeFromBuckets, EVENT_NEW, EVENT_DEL,
      removeFirst_absent l e.data hnotin]

/-- Witness for C3 at concrete inputs. -/
theorem spec_c3_witness :
    removeFirst ([2, 3] ++ 5 :: [7]) 5 = some ([2, 3] ++ [7]) ∧
    applyEvent absentLeafStore [(OBJECT_LEAF, [9])] ⟨EVENT_DEL, 5⟩ = none :=
  ⟨spec_c3_remove_semantics.2.1 [2, 3] [7] 5 (by decide),
   spec_c3_remove_semantics.2.2.2 absentLeafStore ⟨EVENT_DEL, 5⟩
     (Entity.leaf ⟨3, false, 0⟩) [9] rfl rfl (by decide)⟩

-- store toolkit
theorem Store.upd_same (st : Store) (i : ℕ) (e : Entity) : (st.upd i e) i = some e := by
  simp [Store.upd]

theorem Store.upd_other (st : Store) (i : ℕ) (e : Entity) (j : ℕ) (h : j ≠ i) :
    (st.upd i e) j = st j := by
  simp [Store.upd, h]

theorem Store.fallOffAt_other (st : Store) (i j : ℕ) (h : j ≠ i) :
    (st.fallOffAt i) j = st j := by
  simp [Store.fallOffAt, h]

theorem Store.fallOffAt_same_leaf (st : Store) (i : ℕ) (lf : Leaf)
    (h : st i = some (Entity.leaf lf)) :
    (st.fallOffAt i) i = some (Entity.leaf lf.fall_off) := by
  simp [Store.fallOffAt, h]

theorem Store.fallOffAt_branch (st : Store) (i j : ℕ) (bb : Branch)
    (h : st j = some (Entity.branch bb)) :
    (st.fallOffAt i) j = st j := by
  unfold Store.fallOffAt
  by_cases hj : j = i
  · subst hj
    simp [h]
  · simp [hj]

theorem Store.setRadiusAt_other (st : Store) (i : ℕ) (r : ℚ) (j : ℕ) (h : j ≠ i) :
    (st.setRadiusAt i r) j = st j := by
  simp [Store.setRadiusAt, h]

theorem Store.setRadiusAt_same (st : Store) (i : ℕ) (r : ℚ) (bb : Branch)
    (h : st i = some (Entity.branch bb)) :
    (st.setRadiusAt i r) i = some (Entity.branch { bb with radius := r }) := by
  simp [Store.setRadiusAt, h]

theorem Store.setRadiusAt_leaf (st : Store) (i : ℕ) (r : ℚ) (j : ℕ) (lf : Leaf)
    (h : st j = some (Entity.leaf lf)) :
    (st.setRadiusAt i r) j = st j := by
  unfold Store.setRadiusAt
  by_cases hj : j = i
  · subst hj
    simp [h]
  · simp [hj]

theorem setRadiusAt_keeps_leaf (st : Store) (i : ℕ) (r : ℚ) (j : ℕ) (lf : Leaf)
    (h : st j = some (Entity.leaf lf)) :
    (st.setRadiusAt i r) j = some (Entity.leaf lf) :=
  (Store.setRadiusAt_leaf st i r j lf h).trans h

-- after the two child-radius writes of attempt_grow_wider, the above
-- child holds exactly the second write (even if both writes hit one id)
theorem setRadiusAt_chain (st : Store) (c a : ℕ) (r1 r2 : ℚ) (ab : Branch)
    (h : st a = some (Entity.branch ab)) :
    ((st.setRadiusAt c r1).setRadiusAt a r2) a =
      some (Entity.branch { ab with radius := r2 }) := by
  by_cases hac : a = c
  · subst hac
    have h1 : (st.setRadiusAt a r1) a = some (Entity.branch { ab with radius := r1 }) :=
      Store.setRadiusAt_same st a r1 ab h
    exact Store.setRadiusAt_same _ a r2 { ab with radius := r1 } h1
  · have h1 : (st.setRadiusAt c r1) a = st a := Store.setRadiusAt_other st c r1 a hac
    exact Store.setRadiusAt_same _ a r2 ab (h1.trans h)

/-- C5: immediately after attempt_grow_wider, whenever the split child
exists its radius is the parent's current (post-thicken) radius times
BRANCH_SPLIT_RADIUS, and whenever the above child exists its radius is
the parent's current radius times BRANCH_TOP_RADIUS. -/
theorem spec_c5_radius_propagation (C : Consts) (st : Store) (b : Branch) :
    (∀ c cb, b.split = SplitField.child c → st c = some (Entity.branch cb) →
      (b.above = none ∨ ∃ a, b.above = some a ∧ a ≠ c) →
      (b.attempt_grow_wider C st).2 c = some (Entity.branch
        { cb with radius := (b.attempt_grow_wider C st).1.radius * C.BRANCH_SPLIT_RADIUS })) ∧
    (∀ a ab, b.above = some a → st a = some (Entity.branch ab) →
      (b.attempt_grow_wider C st).2 a = some (Entity.branch
        { ab with radius := (b.attempt_grow_wider C st).1.radius * C.BRANCH_TOP_RADIUS })) := by
  constructor
  · intro c cb hsplit hst habove
    unfold Branch.attempt_grow_wider
    dsimp only
    set b1 : Branch := if b.parent = none then { b with radius := b.radius + 1/100000 } else b with hb1
    have hsplit1 : b1.split = SplitField.child c := by
      rw [hb1]; split <;> simpa using hsplit
    have habove1 : b1.above = b.above := by
      rw [hb1]; split <;> simp
    set bs := if b1.radius > C.LEAF_GROWING_MAX_RADIUS ∧ b1.leaves ≠ [] then
        match b1.leaves.getLast? with
        | some i => ({ b1 with leaves := b1.leaves.dropLast }, st.fallOffAt i)
        | none => (b1, st)
      else (b1, st) with hbs
    have hsplit2 : bs.1.split = SplitField.child c := by
      rw [hbs]; split
      · split <;> simpa using hsplit1
      · exact hsplit1
    have habove2 : bs.1.above = b.above := by
      rw [hbs]; split
      · split <;> simpa using habove1
      · exact habove1
    have hst2 : bs.2 c = some (Entity.branch cb) := by
      rw [hbs]; split
      · split
        · exact (Store.fallOffAt_branch st _ c cb hst).trans hst
        · exact hst
      · exact hst
    rcases habove with h0 | ⟨a, ha, hac⟩
    · simp only [hsplit2, habove2, h0]
      exact Store.setRadiusAt_same _ c _ cb hst2
    · simp only [hsplit2, habove2, ha]
      have hw : (bs.2.setRadiusAt c (bs.1.radius * C.BRANCH_SPLIT_RADIUS)) c =
          some (Entity.branch { cb with radius := bs.1.radius * C.BRANCH_SPLIT_RADIUS }) :=
        Store.setRadiusAt_same _ c _ cb hst2
      rw [Store.setRadiusAt_other _ a _ c (fun h => hac h.symm)]
      exact hw
  · intro a ab ha hst
    unfold Branch.attempt_grow_wider
    dsimp only
    set b1 : Branch := if b.parent = none then { b with radius := b.radius + 1/100000 } else b with hb1
    have habove1 : b1.above = b.above := by
      rw [hb1]; split <;> simp
    set bs := if b1.radius > C.LEAF_GROWING_MAX_RADIUS ∧ b1.leaves ≠ [] then
        match b1.leaves.getLast? with
        | some i => ({ b1 with leaves := b1.leaves.dropLast }, st.fallOffAt i)
        | none => (b1, st)
      else (b1, st) with hbs
    have habove2 : bs.1.above = b.above := by
      rw [hbs]; split
      · split <;> simpa using habove1
      · exact habove1
    have hst2 : bs.2 a = some (Entity.branch ab) := by
      rw [hbs]; split
      · split
        · exact (Store.fallOffAt_branch st _ a ab hst).trans hst
        · exact hst
      · exact hst
    cases hsp : bs.1.split with
    | child c =>
      simp only [hsp, habove2, ha]
      exact setRadiusAt_chain bs.2 c a _ _ ab hst2
    | noneYet =>
      simp only [hsp, habove2, ha]
      exact Store.setRadiusAt_same _ a _ ab hst2
    | rejected =>
      simp only [hsp, habove2, ha]
      exact Store.setRadiusAt_same _ a _ ab hst2

/-- Witness for C5 at concrete inputs. -/
theorem spec_c5_witness :
    ((Branch.attempt_grow_wider demoC
        { radius := 2, height := 1, parent := some 9, above := some 7,
          split := SplitField.child 4, leaves := [], age := 0, depth := 2 }
        (fun j => if j = 4 then some (Entity.branch (Branch.newChild 0 1))
          else if j = 7 then some (Entity.branch (Branch.newChild 0 1)) else none)).2 4 =
      some (Entity.branch { Branch.newChild 0 1 with radius := 2 * demoC.BRANCH_SPLIT_RADIUS })) ∧
    ((Branch.attempt_grow_wider demoC
        { radius := 2, height := 1, parent := some 9, above := some 7,
          split := SplitField.child 4, leaves := [], age := 0, depth := 2 }
        (fun j => if j = 4 then some (Entity.branch (Branch.newChild 0 1))
          else if j = 7 then some (Entity.branch (Branch.newChild 0 1)) else none)).2 7 =
      some (Entity.branch { Branch.newChild 0 1 with radius := 2 * demoC.BRANCH_TOP_RADIUS })) := by
  constructor
  · have h := (spec_c5_radius_propagation demoC
      (fun j => if j = 4 then some (Entity.branch (Branch.newChild 0 1))
        else if j = 7 then some (Entity.branch (Branch.newChild 0 1)) else none)
      { radius := 2, height := 1, parent := some 9, above := some 7,
        split := SplitField.child 4, leaves := [], age := 0, depth := 2 }).1
      4 (Branch.newChild 0 1) rfl (by decide) (Or.inr ⟨7, rfl, by decide⟩)
    rw [h]
    congr 1
  · have h := (spec_c5_radius_propagation demoC
      (fun j => if j = 4 then some (Entity.branch (Branch.newChild 0 1))
        else if j = 7 then some (Entity.branch (Branch.newChild 0 1)) else none)
      { radius := 2, height := 1, parent := some 9, above := some 7,
        split := SplitField.child 4, leaves := [], age := 0, depth := 2 }).2
      7 (Branch.newChild 0 1) rfl (by decide)
    rw [h]
    congr 1

/-- Runtime type tag of an optional store entry. -/
def optType (e : Option Entity) : Option ℕ := e.map Entity.objectType

theorem fallOffAt_type (st : Store) (t j : ℕ) :
    optType ((st.fallOffAt t) j) = optType (st j) := by
  unfold Store.fallOffAt
  by_cases hj : j = t
  · subst hj
    simp only [if_pos rfl]
    cases h : st j with
    | none => simp [optType]
    | some e =>
      cases e <;> simp [optType, Entity.objectType, Leaf.fall_off]
  · simp [hj]

theorem setRadiusAt_type (st : Store) (t : ℕ) (r : ℚ) (j : ℕ) :
    optType ((st.setRadiusAt t r) j) = optType (st j) := by
  unfold Store.setRadiusAt
  by_cases hj : j = t
  · subst hj
    simp only [if_pos rfl]
    cases h : st j with
    | none => simp [optType]
    | some e =>
      cases e <;> simp [optType, Entity.objectType]
  · simp [hj]

-- attempt_grow_wider leaves every branch field except radius and the
-- leaf list unchanged, and the new radius is the rootincremented one
theorem grow_wider_fields (C : Consts) (b : Branch) (st : Store) :
    (b.attempt_grow_wider C st).1.radius =
      (if b.parent = none then b.radius + 1/100000 else b.radius) ∧
    (b.attempt_grow_wider C st).1.above = b.above ∧
    (b.attempt_grow_wider C st).1.split = b.split ∧
    (b.attempt_grow_wider C st).1.depth = b.depth ∧
    (b.attempt_grow_wider C st).1.height = b.height ∧
    (b.attempt_grow_wider C st).1.parent = b.parent := by
  unfold Branch.attempt_grow_wider
  dsimp only
  split_ifs with h1 h2 h3 <;>
    first
      | (cases hL : b.leaves.getLast? <;>
          cases hs : b.split <;> cases ha : b.above <;> simp [hs, ha])
      | (cases hs : b.split <;> cases ha : b.above <;> simp [hs, ha])
  all_goals simp_all

/-- The branch radius right after the root-thickening step of
attempt_grow_wider (analysis helper). -/
def growRadius (C : Consts) (b : Branch) : ℚ :=
  if b.parent = none then b.radius + 1/100000 else b.radius

theorem grow_wider_radius (C : Consts) (b : Branch) (st : Store) :
    (b.attempt_grow_wider C st).1.radius = growRadius C b :=
  (grow_wider_fields C b st).1

-- the store after attempt_grow_wider: an optional fall_off write on the
-- popped leaf followed by the two child radius writes
theorem grow_wider_store_char (C : Consts) (b : Branch) (st : Store) :
    ∃ st1 : Store,
      (∀ j bb, st j = some (Entity.branch bb) → st1 j = some (Entity.branch bb)) ∧
      (∀ j, optType (st1 j) = optType (st j)) ∧
      (b.attempt_grow_wider C st).2 =
        (match b.above with
         | some a =>
           (match b.split with
            | SplitField.child c =>
              st1.setRadiusAt c (growRadius C b * C.BRANCH_SPLIT_RADIUS)
            | _ => st1).setRadiusAt a (growRadius C b * C.BRANCH_TOP_RADIUS)
         | none =>
           match b.split with
           | SplitField.child c =>
             st1.setRadiusAt c (growRadius C b * C.BRANCH_SPLIT_RADIUS)
           | _ => st1) := by
  unfold Branch.attempt_grow_wider
  dsimp only
  set b1 : Branch := if b.parent = none then { b with radius := b.radius + 1/100000 } else b with hb1
  have hb1r : b1.radius = growRadius C b := by
    rw [hb1]; unfold growRadius; split <;> rfl
  have hb1s : b1.split = b.split := by
    rw [hb1]; split <;> rfl
  have hb1a : b1.above = b.above := by
    rw [hb1]; split <;> rfl
  set bs := if b1.radius > C.LEAF_GROWING_MAX_RADIUS ∧ b1.leaves ≠ [] then
      match b1.leaves.getLast? with
      | some i => ({ b1 with leaves := b1.leaves.dropLast }, st.fallOffAt i)
      | none => (b1, st)
    else (b1, st) with hbs
  by_cases hc : b1.radius > C.LEAF_GROWING_MAX_RADIUS ∧ b1.leaves ≠ []
  · cases hL : b1.leaves.getLast? with
    | none =>
      have hbse : bs = (b1, st) := by rw [hbs, if_pos hc, hL]
      refine ⟨st, fun j bb h => h, fun j => rfl, ?_⟩
      rw [hbse]
      dsimp only
      rw [hb1s, hb1a, hb1r]
    | some t =>
      have hbse : bs = ({ b1 with leaves := b1.leaves.dropLast }, st.fallOffAt t) := by
        rw [hbs, if_pos hc, hL]
      refine ⟨st.fallOffAt t, ?_, fun j => fallOffAt_type st t j, ?_⟩
      · intro j bb h
        exact (Store.fallOffAt_branch st t j bb h).trans h
      · rw [hbse]
        dsimp only
        rw [hb1s, hb1a, hb1r]
  · have hbse : bs = (b1, st) := by rw [hbs, if_neg hc]
    refine ⟨st, fun j bb h => h, fun j => rfl, ?_⟩
    rw [hbse]
    dsimp only
    rw [hb1s, hb1a, hb1r]

theorem growRadius_pos (C : Consts) (b : Branch) (hb : 0 < b.radius) :
    0 < growRadius C b := by
  unfold growRadius
  split <;> linarith

-- one radius write: the target keeps all other fields and either keeps
-- its radius (not the target) or receives exactly the written value
theorem setRadiusAt_entry (st : Store) (t : ℕ) (r : ℚ) (j : ℕ) (bb : Branch)
    (hj : st j = some (Entity.branch bb)) :
    ∃ bb', (st.setRadiusAt t r) j = some (Entity.branch bb') ∧
      bb'.above = bb.above ∧ bb'.split = bb.split ∧ bb'.leaves = bb.leaves ∧
      bb'.height = bb.height ∧ bb'.depth = bb.depth ∧ bb'.parent = bb.parent ∧
      (bb'.radius = bb.radius ∨ bb'.radius = r) ∧ (j = t → bb'.radius = r) := by
  by_cases hjt : j = t
  · subst hjt
    exact ⟨{ bb with radius := r }, Store.setRadiusAt_same st j r bb hj,
      rfl, rfl, rfl, rfl, rfl, rfl, Or.inr rfl, fun _ => rfl⟩
  · exact ⟨bb, (Store.setRadiusAt_other st t r j hjt).trans hj,
      rfl, rfl, rfl, rfl, rfl, rfl, Or.inl rfl, fun h => absurd h hjt⟩

-- every branch entry of the store survives attempt_grow_wider with the
-- same link fields, and a positive radius stays positive (writes are
-- positive products, provided the constants are positive)
theorem grow_wider_branch_entry (C : Consts) (b : Branch) (st : Store)
    (hT : 0 < C.BRANCH_TOP_RADIUS) (hS : 0 < C.BRANCH_SPLIT_RADIUS)
    (hb : 0 < b.radius) (j : ℕ) (bb : Branch)
    (hj : st j = some (Entity.branch bb)) :
    ∃ bb', (b.attempt_grow_wider C st).2 j = some (Entity.branch bb') ∧
      bb'.above = bb.above ∧ bb'.split = bb.split ∧ bb'.leaves = bb.leaves ∧
      bb'.height = bb.height ∧ bb'.depth = bb.depth ∧ bb'.parent = bb.parent ∧
      (0 < bb.radius → 0 < bb'.radius) := by
  obtain ⟨st1, hbr, hty, heq⟩ := grow_wider_store_char C b st
  have h1 : st1 j = some (Entity.branch bb) := hbr j bb hj
  have hgr := growRadius_pos C b hb
  have hposS : 0 < growRadius C b * C.BRANCH_SPLIT_RADIUS := mul_pos hgr hS
  have hposT : 0 < growRadius C b * C.BRANCH_TOP_RADIUS := mul_pos hgr hT
  rcases ha : b.above with _ | a <;> rcases hs : b.split with _ | _ | c <;>
    simp only [ha, hs] at heq <;> rw [heq]
  · exact ⟨bb, h1, rfl, rfl, rfl, rfl, rfl, rfl, fun h => h⟩
  · exact ⟨bb, h1, rfl, rfl, rfl, rfl, rfl, rfl, fun h => h⟩
  · obtain ⟨bb', he, f1, f2, f3, f4, f5, f6, hr, _⟩ :=
      setRadiusAt_entry st1 c (growRadius C b * C.BRANCH_SPLIT_RADIUS) j bb h1
    exact ⟨bb', he, f1, f2, f3, f4, f5, f6, fun h => by
      rcases hr with h' | h' <;> rw [h'] <;> [exact h; exact hposS]⟩
  · obtain ⟨bb', he, f1, f2, f3, f4, f5, f6, hr, _⟩ :=
      setRadiusAt_entry st1 a (growRadius C b * C.BRANCH_TOP_RADIUS) j bb h1
    exact ⟨bb', he, f1, f2, f3, f4, f5, f6, fun h => by
      rcases hr with h' | h' <;> rw [h'] <;> [exact h; exact hposT]⟩
  · obtain ⟨bb', he, f1, f2, f3, f4, f5, f6, hr, _⟩ :=
      setRadiusAt_entry st1 a (growRadius C b * C.BRANCH_TOP_RADIUS) j bb h1
    exact ⟨bb', he, f1, f2, f3, f4, f5, f6, fun h => by
      rcases hr with h' | h' <;> rw [h'] <;> [exact h; exact hposT]⟩
  · obtain ⟨bb1, he1, g1, g2, g3, g4, g5, g6, hr1, _⟩ :=
      setRadiusAt_entry st1 c (growRadius C b * C.BRANCH_SPLIT_RADIUS) j bb h1
    obtain ⟨bb2, he2, f1, f2, f3, f4, f5, f6, hr2, _⟩ :=
      setRadiusAt_entry _ a (growRadius C b * C.BRANCH_TOP_RADIUS) j bb1 he1
    refine ⟨bb2, he2, f1.trans g1, f2.trans g2, f3.trans g3, f4.trans g4,
      f5.trans g5, f6.trans g6, fun h => ?_⟩
    rcases hr2 with h' | h'
    · rw [h']
      rcases hr1 with h'' | h'' <;> rw [h''] <;> [exact h; exact hposS]
    · rw [h']
      exact hposT

-- a child locked in the above or split field receives a strictly
-- positive radius during its parent's attempt_grow_wider
theorem grow_wider_child_pos (C : Consts) (b : Branch) (st : Store)
    (hT : 0 < C.BRANCH_TOP_RADIUS) (hS : 0 < C.BRANCH_SPLIT_RADIUS)
    (hb : 0 < b.radius) (j : ℕ) (bb : Branch)
    (hj : st j = some (Entity.branch bb))
    (hlink : b.above = some j ∨ b.split = SplitField.child j) :
    ∃ bb', (b.attempt_grow_wider C st).2 j = some (Entity.branch bb') ∧
      0 < bb'.radius := by
  obtain ⟨st1, hbr, hty, heq⟩ := grow_wider_store_char C b st
  have h1 : st1 j = some (Entity.branch bb) := hbr j bb hj
  have hgr := growRadius_pos C b hb
  have hposS : 0 < growRadius C b * C.BRANCH_SPLIT_RADIUS := mul_pos hgr hS
  have hposT : 0 < growRadius C b * C.BRANCH_TOP_RADIUS := mul_pos hgr hT
  rcases hlink with hl | hl
  · -- the above link: the final write hits j with a positive value
    simp only [hl] at heq
    rcases hs : b.split with _ | _ | c <;> simp only [hs] at heq <;> rw [heq]
    · obtain ⟨bb', he, _, _, _, _, _, _, _, hxr⟩ :=
        setRadiusAt_entry st1 j (growRadius C b * C.BRANCH_TOP_RADIUS) j bb h1
      exact ⟨bb', he, by rw [hxr rfl]; exact hposT⟩
    · obtain ⟨bb', he, _, _, _, _, _, _, _, hxr⟩ :=
        setRadiusAt_entry st1 j (growRadius C b * C.BRANCH_TOP_RADIUS) j bb h1
      exact ⟨bb', he, by rw [hxr rfl]; exact hposT⟩
    · obtain ⟨bb1, he1, _, _, _, _, _, _, _, _⟩ :=
        setRadiusAt_entry st1 c (growRadius C b * C.BRANCH_SPLIT_RADIUS) j bb h1
      obtain ⟨bb', he, _, _, _, _, _, _, _, hxr⟩ :=
        setRadiusAt_entry _ j (growRadius C b * C.BRANCH_TOP_RADIUS) j bb1 he1
      exact ⟨bb', he, by rw [hxr rfl]; exact hposT⟩
  · -- the split link: the split write hits j, the optional above write
    -- can only overwrite it with another positive value
    simp only [hl] at heq
    obtain ⟨bb1, he1, _, _, _, _, _, _, _, hxr1⟩ :=
      setRadiusAt_entry st1 j (growRadius C b * C.BRANCH_SPLIT_RADIUS) j bb h1
    rcases ha : b.above with _ | a <;> simp only [ha] at heq <;> rw [heq]
    · exact ⟨bb1, he1, by rw [hxr1 rfl]; exact hposS⟩
    · obtain ⟨bb', he, _, _, _, _, _, _, hr2, _⟩ :=
        setRadiusAt_entry _ a (growRadius C b * C.BRANCH_TOP_RADIUS) j bb1 he1
      refine ⟨bb', he, ?_⟩
      rcases hr2 with h' | h'
      · rw [h', hxr1 rfl]
        exact hposS
      · rw [h']
        exact hposT

-- attempt_grow_wider never changes the runtime type of a store entry
theorem grow_wider_type (C : Consts) (b : Branch) (st : Store) (j : ℕ) :
    optType ((b.attempt_grow_wider C st).2 j) = optType (st j) := by
  obtain ⟨st1, hbr, hty, heq⟩ := grow_wider_store_char C b st
  rcases ha : b.above with _ | a <;> rcases hs : b.split with _ | _ | c <;>
    simp only [ha, hs] at heq <;> rw [heq] <;>
    (try simp only [setRadiusAt_type]) <;> exact hty j

-- past LEAF_GROWING_MAX_RADIUS with leaves attached, the thicken phase
-- pops the last-appended leaf and marks it dying
theorem grow_wider_pop (C : Consts) (b : Branch) (st : Store) (l : List ℕ) (x : ℕ)
    (hleaves : b.leaves = l ++ [x])
    (hrad : b.radius > C.LEAF_GROWING_MAX_RADIUS) :
    (b.attempt_grow_wider C st).1.leaves = l ∧
    (∀ lf, st x = some (Entity.leaf lf) →
      (b.attempt_grow_wider C st).2 x = some (Entity.leaf lf.fall_off)) := by
  unfold Branch.attempt_grow_wider
  dsimp only
  set b1 : Branch := if b.parent = none then { b with radius := b.radius + 1/100000 } else b with hb1
  have hb1r : b1.radius > C.LEAF_GROWING_MAX_RADIUS := by
    rw [hb1]; split <;> (try dsimp only) <;> linarith
  have hb1lv : b1.leaves = l ++ [x] := by
    rw [hb1]; split <;> exact hleaves
  have hb1s : b1.split = b.split := by
    rw [hb1]; split <;> rfl
  have hb1a : b1.above = b.above := by
    rw [hb1]; split <;> rfl
  have hcond : b1.radius > C.LEAF_GROWING_MAX_RADIUS ∧ b1.leaves ≠ [] := by
    refine ⟨hb1r, ?_⟩
    rw [hb1lv]
    simp
  set bs := if b1.radius > C.LEAF_GROWING_MAX_RADIUS ∧ b1.leaves ≠ [] then
      match b1.leaves.getLast? with
      | some i => ({ b1 with leaves := b1.leaves.dropLast }, st.fallOffAt i)
      | none => (b1, st)
    else (b1, st) with hbs
  have hbse : bs = ({ b1 with leaves := l }, st.fallOffAt x) := by
    rw [hbs, if_pos hcond, hb1lv]
    simp only [List.getLast?_concat, List.dropLast_concat]
  have hs2 : bs.1.split = b.split := by rw [hbse]; exact hb1s
  have ha2 : bs.1.above = b.above := by rw [hbse]; exact hb1a
  constructor
  · rw [hbse]
  · intro lf hlf
    have hbase : bs.2 x = some (Entity.leaf lf.fall_off) := by
      rw [hbse]
      exact Store.fallOffAt_same_leaf st x lf hlf
    rcases hsc : b.split with _ | _ | c <;> rcases hac : b.above with _ | a <;>
      simp only [hs2, ha2, hsc, hac] <;>
      first
        | exact hbase
        | exact setRadiusAt_keeps_leaf _ _ _ _ _ hbase
        | exact setRadiusAt_keeps_leaf _ _ _ _ _ (setRadiusAt_keeps_leaf _ _ _ _ _ hbase)

-- attempt_extend either fails (possibly incrementing height) leaving
-- store/id untouched, or fires the one-shot extension
theorem attempt_extend_cases (C : Consts) (i : ℕ) (b : Branch) (st : Store) (nid : ℕ) :
    ((b.attempt_extend C i st nid).2.2.2 = false ∧
     (b.attempt_extend C i st nid).2.1 = st ∧
     (b.attempt_extend C i st nid).2.2.1 = nid ∧
     (b.attempt_extend C i st nid).1.radius = b.radius ∧
     (b.attempt_extend C i st nid).1.leaves = b.leaves ∧
     (b.attempt_extend C i st nid).1.above = b.above ∧
     (b.attempt_extend C i st nid).1.split = b.split ∧
     (b.attempt_extend C i st nid).1.depth = b.depth ∧
     (b.attempt_extend C i st nid).1.parent = b.parent) ∨
    ((b.attempt_extend C i st nid).2.2.2 = true ∧ b.above = none ∧
     (b.attempt_extend C i st nid).1 = { b with height := 1, above := some nid } ∧
     (b.attempt_extend C i st nid).2.1 =
       st.upd nid (Entity.branch (Branch.newChild i b.depth)) ∧
     (b.attempt_extend C i st nid).2.2.1 = nid + 1) := by
  unfold Branch.attempt_extend
  split_ifs with h1 h2
  · left
    exact ⟨rfl, rfl, rfl, rfl, rfl, rfl, rfl, rfl, rfl⟩
  · right
    exact ⟨rfl, h2.1, rfl, rfl, rfl⟩
  · left
    exact ⟨rfl, rfl, rfl, rfl, rfl, rfl, rfl, rfl, rfl⟩

-- attempt_split either fails (possibly moving the tri-state marker)
-- leaving store/id untouched, or fires spawning the split child
theorem attempt_split_cases (C : Consts) (rng : ℕ → ℚ) (i : ℕ) (b : Branch)
    (st : Store) (nid rix : ℕ) :
    ((b.attempt_split C rng i st nid rix).2.2.2.2 = false ∧
     (b.attempt_split C rng i st nid rix).2.1 = st ∧
     (b.attempt_split C rng i st nid rix).2.2.1 = nid ∧
     (b.attempt_split C rng i st nid rix).1.radius = b.radius ∧
     (b.attempt_split C rng i st nid rix).1.leaves = b.leaves ∧
     (b.attempt_split C rng i st nid rix).1.above = b.above ∧
     (b.attempt_split C rng i st nid rix).1.height = b.height ∧
     (b.attempt_split C rng i st nid rix).1.depth = b.depth ∧
     (b.attempt_split C rng i st nid rix).1.parent = b.parent) ∨
    ((b.attempt_split C rng i st nid rix).2.2.2.2 = true ∧
     (b.attempt_split C rng i st nid rix).1 = { b with split := SplitField.child nid } ∧
     (b.attempt_split C rng i st nid rix).2.1 =
       st.upd nid (Entity.branch (Branch.newChild i b.depth)) ∧
     (b.attempt_split C rng i st nid rix).2.2.1 = nid + 1 ∧
     b.split = SplitField.noneYet) := by
  unfold Branch.attempt_split
  cases hs : b.split with
  | noneYet =>
    dsimp only
    split_ifs with h1 h2
    · exact Or.inr ⟨rfl, rfl, rfl, rfl, rfl⟩
    · exact Or.inl ⟨rfl, rfl, rfl, rfl, rfl, rfl, rfl, rfl, rfl⟩
    · exact Or.inl ⟨rfl, rfl, rfl, rfl, rfl, rfl, rfl, rfl, rfl⟩
  | rejected =>
    dsimp only
    split_ifs with h1
    · exact Or.inl ⟨rfl, rfl, rfl, rfl, rfl, rfl, rfl, rfl, rfl⟩
    · exact Or.inl ⟨rfl, rfl, rfl, rfl, rfl, rfl, rfl, rfl, rfl⟩
  | child c =>
    dsimp only
    exact Or.inl ⟨rfl, rfl, rfl, rfl, rfl, rfl, rfl, rfl, rfl⟩

-- a split child link, once owning, survives attempt_split; a fresh fire
-- can only happen from the undecided state
theorem attempt_split_keeps_child (C : Consts) (rng : ℕ → ℚ) (i : ℕ) (b : Branch)
    (st : Store) (nid rix : ℕ) (j : ℕ) (h : b.split = SplitField.child j) :
    (b.attempt_split C rng i st nid rix).1.split = SplitField.child j := by
  unfold Branch.attempt_split
  rw [h]
  exact h

-- a branch past LEAF_GROWING_MAX_RADIUS never grows a leaf
theorem attempt_grow_leaf_guard_false (C : Consts) (i : ℕ) (b : Branch)
    (st : Store) (nid : ℕ) (h : ¬ b.radius < C.LEAF_GROWING_MAX_RADIUS) :
    b.attempt_grow_leaf C i st nid = some (b, st, nid, false) := by
  unfold Branch.attempt_grow_leaf
  rw [if_neg h]

/-- A branch over the leaf-shedding radius holding two leaves (ids 1 and
2, appended in that order), with an above child at id 7. -/
def c4Branch : Branch :=
  { radius := 1, height := 1, parent := some 9, above := some 7,
    split := SplitField.rejected, leaves := [1, 2], age := 0, depth := 2 }

/-- Store for the C4 counterexample: the branch, its two leaves, and its
above child. -/
def c4Store : Store := fun j =>
  if j = 0 then some (Entity.branch c4Branch)
  else if j = 1 then some (Entity.leaf ⟨10, false, 0⟩)
  else if j = 2 then some (Entity.leaf ⟨20, false, 0⟩)
  else if j = 7 then some (Entity.branch (Branch.newChild 0 1)) else none

/-- C4 counterexample: with leaves [1, 2] appended in that order, the tick
marks leaf 2 (the newest-appended, popped by list.pop from the end of the
list) as dying and leaves leaf 1 (the oldest-appended) untouched — the
opposite of the claimed oldest-appended detachment. -/
theorem spec_c4_counterexample :
    (Branch.update demoC demoRng 0 c4Branch ⟨c4Store, 8, 0⟩).map
      (fun r => (r.1.st 1, r.1.st 2)) =
    some (some (Entity.leaf ⟨10, false, 0⟩), some (Entity.leaf ⟨20, true, 0⟩)) := by
  decide

/-- C4 amended: for every branch whose (checked) radius exceeds
LEAF_GROWING_MAX_RADIUS and whose leaf list is non-empty, the thicken
phase detaches the NEWEST-appended leaf (list.pop removes the last
element) by calling fall_off on it (dying := true), removes it from the
branch's leaf list but not from the store/registry (no Remove event), and
no new-leaf event fires on that tick for that branch: the tick's event is
none or the spawn of a branch child. -/
theorem spec_c4_thicken_detaches_newest (C : Consts) (rng : ℕ → ℚ) (i : ℕ)
    (b : Branch) (st : Store) (nid rix : ℕ) (l : List ℕ) (x : ℕ) (lf : Leaf)
    (hrad : b.radius > C.LEAF_GROWING_MAX_RADIUS)
    (hleaves : b.leaves = l ++ [x])
    (hlf : st x = some (Entity.leaf lf))
    (hxi : x ≠ i) (hxn : x < nid) (hin : i < nid) :
    ∃ ts ev, Branch.update C rng i b ⟨st, nid, rix⟩ = some (ts, ev) ∧
      ts.st x = some (Entity.leaf lf.fall_off) ∧
      (∃ b', ts.st i = some (Entity.branch b') ∧ b'.leaves = l) ∧
      (ev = none ∨ ∃ c bc, ev = some ⟨EVENT_NEW, c⟩ ∧
        ts.st c = some (Entity.branch bc)) := by
  obtain ⟨hglv, hgx'⟩ := grow_wider_pop C b st l x hleaves hrad
  have hgx : (b.attempt_grow_wider C st).2 x = some (Entity.leaf lf.fall_off) :=
    hgx' lf hlf
  have hgr : (b.attempt_grow_wider C st).1.radius > C.LEAF_GROWING_MAX_RADIUS := by
    rw [grow_wider_radius]
    unfold growRadius
    split <;> linarith
  unfold Branch.update
  dsimp only
  set gw := b.attempt_grow_wider C st with hgw
  rcases attempt_extend_cases C i gw.1 gw.2 nid with hE | hE
  · -- the extension did not fire
    simp only [hE.1, Bool.false_eq_true, if_false]
    rcases attempt_split_cases C rng i
        (gw.1.attempt_extend C i gw.2 nid).1
        (gw.1.attempt_extend C i gw.2 nid).2.1
        (gw.1.attempt_extend C i gw.2 nid).2.2.1 rix with hS | hS
    · -- the split did not fire either: the foliate guard is false
      simp only [hS.1, Bool.false_eq_true, if_false]
      have hsr : ((gw.1.attempt_extend C i gw.2 nid).1.attempt_split C rng i
          (gw.1.attempt_extend C i gw.2 nid).2.1
          (gw.1.attempt_extend C i gw.2 nid).2.2.1 rix).1.radius = gw.1.radius := by
        rw [hS.2.2.2.1, hE.2.2.2.1]
      have hngl : ¬ (((gw.1.attempt_extend C i gw.2 nid).1.attempt_split C rng i
          (gw.1.attempt_extend C i gw.2 nid).2.1
          (gw.1.attempt_extend C i gw.2 nid).2.2.1 rix).1.radius <
            C.LEAF_GROWING_MAX_RADIUS) := by
        rw [hsr]
        exact not_lt.mpr (le_of_lt hgr)
      rw [attempt_grow_leaf_guard_false C i _ _ _ hngl]
      refine ⟨_, _, rfl, ?_, ?_, Or.inl rfl⟩
      · dsimp only
        rw [Store.upd_other _ _ _ _ hxi, hS.2.1, hE.2.1]
        exact hgx
      · dsimp only
        refine ⟨_, Store.upd_same _ _ _, ?_⟩
        rw [hS.2.2.2.2.1, hE.2.2.2.2.1]
        exact hglv
    · -- the split fired: the event is the spawn of the split child
      simp only [hS.1, if_true]
      refine ⟨_, _, rfl, ?_, ?_, ?_⟩
      · dsimp only
        rw [Store.upd_other _ _ _ _ hxi, hS.2.2.1, hE.2.2.1,
          Store.upd_other _ _ _ _ (by omega : x ≠ nid), hE.2.1]
        exact hgx
      · dsimp only
        refine ⟨_, Store.upd_same _ _ _, ?_⟩
        rw [hS.2.1]
        dsimp only
        rw [hE.2.2.2.2.1]
        exact hglv
      · refine Or.inr ⟨(gw.1.attempt_extend C i gw.2 nid).2.2.1,
          Branch.newChild i (gw.1.attempt_extend C i gw.2 nid).1.depth, ?_, ?_⟩
        · rw [hS.2.1]
        · dsimp only
          rw [Store.upd_other _ _ _ _ (by rw [hE.2.2.1]; omega :
              (gw.1.attempt_extend C i gw.2 nid).2.2.1 ≠ i),
            hS.2.2.1]
          exact Store.upd_same _ _ _
  · -- the extension fired: the event is the spawn of the above child
    simp only [hE.1, if_true]
    refine ⟨_, _, rfl, ?_, ?_, ?_⟩
    · dsimp only
      rw [Store.upd_other _ _ _ _ hxi, hE.2.2.2.1,
        Store.upd_other _ _ _ _ (by omega : x ≠ nid)]
      exact hgx
    · dsimp only
      refine ⟨_, Store.upd_same _ _ _, ?_⟩
      rw [hE.2.2.1]
      dsimp only
      exact hglv
    · refine Or.inr ⟨nid, Branch.newChild i gw.1.depth, ?_, ?_⟩
      · rw [hE.2.2.1]
      · dsimp only
        rw [Store.upd_other _ _ _ _ (by omega : nid ≠ i), hE.2.2.2.1]
        exact Store.upd_same _ _ _

/-- Witness for C4 at concrete inputs. -/
theorem spec_c4_witness :
    ∃ ts ev, Branch.update demoC demoRng 0 c4Branch ⟨c4Store, 8, 0⟩ = some (ts, ev) ∧
      ts.st 2 = some (Entity.leaf (Leaf.fall_off ⟨20, false, 0⟩)) ∧
      (∃ b', ts.st 0 = some (Entity.branch b') ∧ b'.leaves = [1]) ∧
      (ev = none ∨ ∃ c bc, ev = some ⟨EVENT_NEW, c⟩ ∧
        ts.st c = some (Entity.branch bc)) :=
  spec_c4_thicken_detaches_newest demoC demoRng 0 c4Branch c4Store 8 0 [1] 2
    ⟨20, false, 0⟩ (by decide) (by decide) (by decide) (by decide) (by decide)
    (by decide)

/-- 4x4 rational matrix (single-precision floats of the source replaced
by exact rationals; row-vector convention of pyrr, points transform as
v @ M). -/
abbrev Mat4 := Matrix (Fin 4) (Fin 4) ℚ

/-- pyrr.matrix44.create_from_x_rotation, parameterised by the cosine and
sine of the angle (the source computes them from radians(eulers[0])). -/
def create_from_x_rotation (c s : ℚ) : Mat4 :=
  !![1, 0, 0, 0; 0, c, s, 0; 0, -s, c, 0; 0, 0, 0, 1]

/-- pyrr.matrix44.create_from_y_rotation. -/
def create_from_y_rotation (c s : ℚ) : Mat4 :=
  !![c, 0, -s, 0; 0, 1, 0, 0; s, 0, c, 0; 0, 0, 0, 1]

/-- pyrr.matrix44.create_from_z_rotation. -/
def create_from_z_rotation (c s : ℚ) : Mat4 :=
  !![c, s, 0, 0; -s, c, 0, 0; 0, 0, 1, 0; 0, 0, 0, 1]

/-- pyrr.matrix44.create_from_translation (row-vector convention: the
translation sits in the last row). -/
def create_from_translation (x y z : ℚ) : Mat4 :=
  !![1, 0, 0, 0; 0, 1, 0, 0; 0, 0, 1, 0; x, y, z, 1]

/-- pyrr.matrix44.create_from_scale. -/
def create_from_scale (a b c : ℚ) : Mat4 :=
  !![a, 0, 0, 0; 0, b, 0, 0; 0, 0, c, 0; 0, 0, 0, 1]

/-- The cosines and sines of an entity's three Euler angles (the source
converts degrees to radians and takes cos/sin; the trigonometric values
are abstract inputs here). -/
structure RotParams where
  cx : ℚ
  sx : ℚ
  cy : ℚ
  sy : ℚ
  cz : ℚ
  sz : ℚ

/-- Entity.get_model_transform of model.py: identity, then rotate about
x, then y, then z, then translate by position (successive
pyrr.matrix44.multiply calls, i.e. matrix products in that order). -/
def Entity.get_model_transform (r : RotParams) (px py pz : ℚ) : Mat4 :=
  (((1 * create_from_x_rotation r.cx r.sx) * create_from_y_rotation r.cy r.sy) *
    create_from_z_rotation r.cz r.sz) * create_from_translation px py pz

/-- Leaf.get_model_transform of model.py: a uniform scale by
min(0.2, age/1000) composed (only) with the leaf's own
rotation-then-translation transform. -/
def Leaf.get_model_transform (age : ℤ) (r : RotParams) (px py pz : ℚ) : Mat4 :=
  let scale_factor := pymin (1/5) ((age : ℚ) / 1000)
  create_from_scale scale_factor scale_factor scale_factor *
    Entity.get_model_transform r px py pz

/-- Branch.get_model_transform of model.py: a non-uniform scale by
(radius, radius, height) composed with the entity transform. -/
def Branch.get_model_transform (radius height : ℚ) (r : RotParams)
    (px py pz : ℚ) : Mat4 :=
  create_from_scale radius radius height * Entity.get_model_transform r px py pz

/-- Modelled from the spec: the spec's leaf transform, which additionally
composes with the owning branch's model transform because it takes the
leaf position to be expressed in branch-local space.  Used only to
compare against the source's Leaf.get_model_transform. -/
def Leaf.get_model_transform_spec (age : ℤ) (r : RotParams) (px py pz : ℚ)
    (branchM : Mat4) : Mat4 :=
  Leaf.get_model_transform age r px py pz * branchM

/-- C8 counterexample: for a concrete leaf (age 1000, zero angles,
position (1,2,3)) owned by a concrete branch (radius 2, height 3, zero
angles, position (4,5,6)), the source's leaf transform differs from the
spec's branch-composed transform already in the translation entry (3,0):
the code does not compose with the owning branch's transform. -/
theorem spec_c8_counterexample :
    Leaf.get_model_transform 1000 ⟨1, 0, 1, 0, 1, 0⟩ 1 2 3 3 0 ≠
    Leaf.get_model_transform_spec 1000 ⟨1, 0, 1, 0, 1, 0⟩ 1 2 3
      (Branch.get_model_transform 2 3 ⟨1, 0, 1, 0, 1, 0⟩ 4 5 6) 3 0 := by
  decide

/-- C8 amended: Leaf.get_model_transform returns the uniform scale by
s = min(0.2, age/1000) composed with the leaf's own
rotation-then-translation transform and nothing else — the owning
branch's transform is NOT composed (the leaf's stored position is already
a world-space point: calculate_leaf_pos pushes the rim point through the
branch's full model transform before storing it).  The second conjunct
shows the entity transform places its stored position directly in the
translation row. -/
theorem spec_c8_leaf_transform (age : ℤ) (r : RotParams) (px py pz : ℚ) :
    (Leaf.get_model_transform age r px py pz =
      create_from_scale (pymin (1/5) ((age : ℚ) / 1000))
        (pymin (1/5) ((age : ℚ) / 1000)) (pymin (1/5) ((age : ℚ) / 1000)) *
        Entity.get_model_transform r px py pz) ∧
    (∀ j, Entity.get_model_transform r px py pz 3 j = ![px, py, pz, 1] j) := by
  constructor
  · rfl
  · intro j
    fin_cases j <;>
      simp [Entity.get_model_transform, create_from_x_rotation,
        create_from_y_rotation, create_from_z_rotation,
        create_from_translation, Matrix.mul_apply, Fin.sum_univ_four]

-- with a positive radius the foliate guard cannot divide by zero: the
-- attempt either does nothing or grows one leaf
theorem attempt_grow_leaf_pos (C : Consts) (i : ℕ) (b : Branch) (st : Store)
    (nid : ℕ) (hb : 0 < b.radius) :
    b.attempt_grow_leaf C i st nid = some (b, st, nid, false) ∨
    b.attempt_grow_leaf C i st nid =
      some ({ b with leaves := b.leaves ++ [nid] },
        st.upd nid (Entity.leaf { age := 1, dying := false, branch := i }),
        nid + 1, true) := by
  unfold Branch.attempt_grow_leaf
  split_ifs with h1 h2 h3
  · exact absurd h2 (ne_of_gt hb)
  · exact Or.inr rfl
  · exact Or.inl rfl
  · exact Or.inl rfl

theorem entity_update_branch (C : Consts) (rng : ℕ → ℚ) (i : ℕ) (ts : TState)
    (b : Branch) (h : ts.st i = some (Entity.branch b)) :
    Entity.update C rng i ts = Branch.update C rng i b ts := by
  unfold Entity.update
  rw [h]

theorem entity_update_leaf (C : Consts) (rng : ℕ → ℚ) (i : ℕ) (ts : TState)
    (l : Leaf) (h : ts.st i = some (Entity.leaf l)) :
    Entity.update C rng i ts =
      some (⟨ts.st.upd i (Entity.leaf l.update.1), ts.nid, ts.rix⟩,
        if l.update.2 then some ⟨EVENT_DEL, i⟩ else none) := by
  unfold Entity.update
  rw [h]

theorem entity_update_cube (C : Consts) (rng : ℕ → ℚ) (i : ℕ) (ts : TState)
    (h : ts.st i = some Entity.cube) :
    Entity.update C rng i ts = some (ts, none) := by
  unfold Entity.update
  rw [h]

theorem entity_update_missing (C : Consts) (rng : ℕ → ℚ) (i : ℕ) (ts : TState)
    (h : ts.st i = none) :
    Entity.update C rng i ts = some (ts, none) := by
  unfold Entity.update
  rw [h]

/-- Shape of one Branch.update dispatch with a positive radius: the final
store is the attempt_grow_wider store, possibly extended with one fresh
entity at the old nextId (a branch child spawned by extend or split, or a
leaf), with the branch written back at its own id; the event, if any, is
the spawn of the fresh id. -/
theorem branch_update_shape (C : Consts) (rng : ℕ → ℚ) (i : ℕ) (b : Branch)
    (ts : TState) (hb : 0 < b.radius) :
    ∃ (stMid : Store) (bF : Branch) (nidF rixF : ℕ) (ev : Option Event),
      Branch.update C rng i b ts =
        some (⟨stMid.upd i (Entity.branch bF), nidF, rixF⟩, ev) ∧
      ((stMid = (b.attempt_grow_wider C ts.st).2 ∧ nidF = ts.nid ∧ ev = none) ∨
       (stMid = ((b.attempt_grow_wider C ts.st).2).upd ts.nid
          (Entity.branch (Branch.newChild i b.depth)) ∧ nidF = ts.nid + 1 ∧
        ev = some ⟨EVENT_NEW, ts.nid⟩ ∧
        (bF.above = some ts.nid ∨ bF.split = SplitField.child ts.nid)) ∨
       (stMid = ((b.attempt_grow_wider C ts.st).2).upd ts.nid
          (Entity.leaf { age := 1, dying := false, branch := i }) ∧
        nidF = ts.nid + 1 ∧ ev = some ⟨EVENT_NEW, ts.nid⟩)) ∧
      bF.radius = growRadius C b ∧
      bF.depth = b.depth ∧
      (∀ j, b.above = some j → bF.above = some j) ∧
      (∀ j, b.split = SplitField.child j → bF.split = SplitField.child j) := by
  have hgr := grow_wider_radius C b ts.st
  obtain ⟨-, hga, hgs, hgd, hgh, hgp⟩ := grow_wider_fields C b ts.st
  unfold Branch.update
  dsimp only
  rcases attempt_extend_cases C i (b.attempt_grow_wider C ts.st).1
      (b.attempt_grow_wider C ts.st).2 ts.nid with hE | hE
  · -- the extension did not fire
    obtain ⟨hE1, hE2, hE3, hE4, hE5, hE6, hE7, hE8, hE9⟩ := hE
    simp only [hE1, Bool.false_eq_true, if_false]
    rcases attempt_split_cases C rng i
        ((b.attempt_grow_wider C ts.st).1.attempt_extend C i
          (b.attempt_grow_wider C ts.st).2 ts.nid).1
        ((b.attempt_grow_wider C ts.st).1.attempt_extend C i
          (b.attempt_grow_wider C ts.st).2 ts.nid).2.1
        ((b.attempt_grow_wider C ts.st).1.attempt_extend C i
          (b.attempt_grow_wider C ts.st).2 ts.nid).2.2.1 ts.rix with hS | hS
    · -- the split did not fire either
      obtain ⟨hS1, hS2, hS3, hS4, hS5, hS6, hS7, hS8, hS9⟩ := hS
      simp only [hS1, Bool.false_eq_true, if_false]
      have hrad2 : 0 < (((b.attempt_grow_wider C ts.st).1.attempt_extend C i
          (b.attempt_grow_wider C ts.st).2 ts.nid).1.attempt_split C rng i
          ((b.attempt_grow_wider C ts.st).1.attempt_extend C i
            (b.attempt_grow_wider C ts.st).2 ts.nid).2.1
          ((b.attempt_grow_wider C ts.st).1.attempt_extend C i
            (b.attempt_grow_wider C ts.st).2 ts.nid).2.2.1 ts.rix).1.radius := by
        rw [hS4, hE4, hgr]
        exact growRadius_pos C b hb
      rcases attempt_grow_leaf_pos C i _ _ _ hrad2 with hG | hG
      · -- nothing fired: no event, no fresh entity
        rw [hG]
        dsimp only
        refine ⟨_, _, _, _, _, rfl, Or.inl ⟨?_, ?_, rfl⟩, ?_, ?_, ?_, ?_⟩
        · rw [hS2, hE2]
        · rw [hS3, hE3]
        · rw [hS4, hE4, hgr]
        · rw [hS8, hE8, hgd]
        · intro j hj
          rw [hS6, hE6, hga]
          exact hj
        · intro j hj
          exact attempt_split_keeps_child C rng i _ _ _ _ j (by rw [hE7, hgs]; exact hj)
      · -- a leaf was grown: fresh leaf at the old nextId
        rw [hG]
        dsimp only
        rw [List.getLast?_concat]
        refine ⟨_, _, _, _, _, rfl, Or.inr (Or.inr ⟨?_, ?_, ?_⟩), ?_, ?_, ?_, ?_⟩
        · rw [hS2, hS3, hE2, hE3]
        · rw [hS3, hE3]
        · rw [hS3, hE3]
          simp
        · dsimp only
          rw [hS4, hE4, hgr]
        · dsimp only
          rw [hS8, hE8, hgd]
        · intro j hj
          dsimp only
          rw [hS6, hE6, hga]
          exact hj
        · intro j hj
          dsimp only
          exact attempt_split_keeps_child C rng i _ _ _ _ j (by rw [hE7, hgs]; exact hj)
    · -- the split fired: fresh branch child at the old nextId
      obtain ⟨hS1, hS2, hS3, hS4, hS5⟩ := hS
      simp only [hS1, if_true]
      refine ⟨_, _, _, _, _, rfl, Or.inr (Or.inl ⟨?_, ?_, ?_, ?_⟩), ?_, ?_, ?_, ?_⟩
      · rw [hS3, hE2, hE3, hE8, hgd]
      · rw [hS4, hE3]
      · rw [hS2]
        dsimp only
        rw [hE3]
      · right
        rw [hS2]
        dsimp only
        rw [hE3]
      · rw [hS2]
        dsimp only
        rw [hE4, hgr]
      · rw [hS2]
        dsimp only
        rw [hE8, hgd]
      · intro j hj
        rw [hS2]
        dsimp only
        rw [hE6, hga]
        exact hj
      · intro j hj
        rw [hS2]
        dsimp only
        have : ((b.attempt_grow_wider C ts.st).1.attempt_extend C i
            (b.attempt_grow_wider C ts.st).2 ts.nid).1.split = SplitField.child j := by
          rw [hE7, hgs]
          exact hj
        rw [hS5] at this
        exact SplitField.noConfusion this
  · -- the extension fired: fresh branch child at the old nextId
    obtain ⟨hE1, hE2, hE3, hE4, hE5⟩ := hE
    simp only [hE1, if_true]
    refine ⟨_, _, _, _, _, rfl, Or.inr (Or.inl ⟨?_, ?_, ?_, ?_⟩), ?_, ?_, ?_, ?_⟩
    · rw [hE4, hgd]
    · rw [hE5]
    · rw [hE3]
    · left
      rw [hE3]
    · rw [hE3]
      dsimp only
      rw [hgr]
    · rw [hE3]
      dsimp only
      rw [hgd]
    · intro j hj
      have : (b.attempt_grow_wider C ts.st).1.above = some j := by
        rw [hga]
        exact hj
      rw [hE2] at this
      exact Option.noConfusion this
    · intro j hj
      rw [hE3]
      dsimp only
      rw [hgs]
      exact hj

-- one step of the scene traversal, given the dispatch result and the
-- traversal of the remaining entities
theorem traverseList_cons_eq (C : Consts) (rng : ℕ → ℚ) (i : ℕ) (rest : List ℕ)
    (ts ts' : TState) (ev : Option Event) (out' : TState × List Event × Trace)
    (h1 : Entity.update C rng i ts = some (ts', ev))
    (h2 : traverseList C rng rest ts' = some out') :
    traverseList C rng (i :: rest) ts =
      some (out'.1, ev.toList ++ out'.2.1, (i, ts.st i) :: out'.2.2) := by
  unfold traverseList
  rw [h1]
  dsimp only
  rw [h2]
  cases ev <;> rfl

/-- A root branch with an above child at id 1 (family used to show
same-tick visibility of direct field mutations). -/
def parentBranch (r : ℚ) : Branch :=
  { radius := r, height := 1, parent := none, above := some 1,
    split := SplitField.rejected, leaves := [], age := 0, depth := 1 }

/-- Store of the two-branch scene: the parent at id 0, its zero-radius
above child at id 1. -/
def twoBranchStore (r : ℚ) : Store := fun j =>
  if j = 0 then some (Entity.branch (parentBranch r))
  else if j = 1 then some (Entity.branch (Branch.newChild 0 1)) else none

/-- C2 counterexample: one tick after the initial scene (tick 1 spawns
the above child with radius 0), the next Scene.update call lets the root
write the child's radius during the traversal, and the child's own update
in that same tick observes the written (non-zero) radius, not the
pre-tick value 0: same-tick mutations of other entities are visible. -/
theorem spec_c2_counterexample :
    (Scene.update demoC demoScene0).isSome = true ∧
    entRadius (demoScene1.store 1) = 0 ∧
    entRadius (observedEnt demoC demoScene1 1) = 35007/500000 ∧
    (35007/500000 : ℚ) ≠ 0 := by
  refine ⟨by decide, by decide, by decide, by decide⟩

/-- C2 amended: within one tick, entity updates observe the current
threaded state, not the pre-tick state: in the two-branch scene the
parent (visited first) assigns its above child's radius inside
attempt_grow_wider, and the child's own update in the same traversal
observes that same-tick write ((r + 0.00001) * BRANCH_TOP_RADIUS, not its
pre-tick radius 0).  Only registry membership changes (Spawn/Remove) are
deferred to the end of the tick. -/
theorem spec_c2_same_tick_visibility (C : Consts) (rng : ℕ → ℚ) (r : ℚ)
    (hr : 0 < r) (hT : 0 < C.BRANCH_TOP_RADIUS) :
    ∃ out, traverseList C rng [0, 1] ⟨twoBranchStore r, 2, 0⟩ = some out ∧
      out.2.2 = [(0, some (Entity.branch (parentBranch r))),
        (1, some (Entity.branch { Branch.newChild 0 1 with
          radius := (r + 1/100000) * C.BRANCH_TOP_RADIUS }))] ∧
      (Branch.newChild 0 1).radius = 0 ∧
      (r + 1/100000) * C.BRANCH_TOP_RADIUS ≠ 0 := by
  have hrpos : 0 < r + 1/100000 := by linarith
  have hvpos : 0 < (r + 1/100000) * C.BRANCH_TOP_RADIUS := mul_pos hrpos hT
  obtain ⟨stMid, bF, nidF, rixF, ev0, hupd0, hdisj, -, -, -, -⟩ :=
    branch_update_shape C rng 0 (parentBranch r) ⟨twoBranchStore r, 2, 0⟩ hr
  obtain ⟨st1, hbr, hty, heq⟩ :=
    grow_wider_store_char C (parentBranch r) (twoBranchStore r)
  have hst1 : st1 1 = some (Entity.branch (Branch.newChild 0 1)) :=
    hbr 1 (Branch.newChild 0 1) rfl
  have hreduce : ((parentBranch r).attempt_grow_wider C (twoBranchStore r)).2 =
      st1.setRadiusAt 1 (growRadius C (parentBranch r) * C.BRANCH_TOP_RADIUS) := heq
  have hval : ((parentBranch r).attempt_grow_wider C (twoBranchStore r)).2 1 =
      some (Entity.branch { Branch.newChild 0 1 with
        radius := (r + 1/100000) * C.BRANCH_TOP_RADIUS }) := by
    rw [hreduce, show growRadius C (parentBranch r) = r + 1/100000 from rfl]
    exact Store.setRadiusAt_same st1 1 _ _ hst1
  have hts1st : (⟨stMid.upd 0 (Entity.branch bF), nidF, rixF⟩ : TState).st 1 =
      some (Entity.branch { Branch.newChild 0 1 with
        radius := (r + 1/100000) * C.BRANCH_TOP_RADIUS }) := by
    dsimp only
    rw [Store.upd_other _ _ _ _ (by decide : (1:ℕ) ≠ 0)]
    rcases hdisj with ⟨h1, -, -⟩ | ⟨h1, -, -, -⟩ | ⟨h1, -, -⟩ <;> rw [h1]
    · exact hval
    · rw [Store.upd_other _ _ _ _ (by decide : (1:ℕ) ≠ 2)]
      exact hval
    · rw [Store.upd_other _ _ _ _ (by decide : (1:ℕ) ≠ 2)]
      exact hval
  obtain ⟨stMid2, bF2, nidF2, rixF2, ev1, hupd1, -, -, -, -, -⟩ :=
    branch_update_shape C rng 1
      { Branch.newChild 0 1 with radius := (r + 1/100000) * C.BRANCH_TOP_RADIUS }
      ⟨stMid.upd 0 (Entity.branch bF), nidF, rixF⟩ hvpos
  have h0 : Entity.update C rng 0 ⟨twoBranchStore r, 2, 0⟩ =
      some (⟨stMid.upd 0 (Entity.branch bF), nidF, rixF⟩, ev0) := by
    rw [entity_update_branch C rng 0 _ (parentBranch r) rfl]
    exact hupd0
  have h1 : Entity.update C rng 1 ⟨stMid.upd 0 (Entity.branch bF), nidF, rixF⟩ =
      some (⟨stMid2.upd 1 (Entity.branch bF2), nidF2, rixF2⟩, ev1) := by
    rw [entity_update_branch C rng 1 _ _ hts1st]
    exact hupd1
  have htail := traverseList_cons_eq C rng 1 [] _ _ ev1 _ h1 rfl
  have hfull := traverseList_cons_eq C rng 0 [1] _ _ ev0 _ h0 htail
  refine ⟨_, hfull, ?_, rfl, ne_of_gt hvpos⟩
  dsimp only
  dsimp only at hts1st
  rw [hts1st]
  rfl

/-- Witness for C2's amended theorem at concrete inputs. -/
theorem spec_c2_witness :
    ∃ out, traverseList demoC demoRng [0, 1] ⟨twoBranchStore 1, 2, 0⟩ = some out ∧
      out.2.2 = [(0, some (Entity.branch (parentBranch 1))),
        (1, some (Entity.branch { Branch.newChild 0 1 with
          radius := ((1:ℚ) + 1/100000) * demoC.BRANCH_TOP_RADIUS }))] ∧
      (Branch.newChild 0 1).radius = 0 ∧
      ((1:ℚ) + 1/100000) * demoC.BRANCH_TOP_RADIUS ≠ 0 :=
  spec_c2_same_tick_visibility demoC demoRng 1 (by decide) (by decide)

-- the inner traversal dispatches exactly the ids of the list it was
-- given, in order, regardless of the store mutations the updates make
theorem traverseList_visits (C : Consts) (rng : ℕ → ℚ) :
    ∀ (l : List ℕ) (ts : TState) (out : TState × List Event × Trace),
      traverseList C rng l ts = some out → out.2.2.map Prod.fst = l := by
  intro l
  induction l with
  | nil =>
    intro ts out h
    unfold traverseList at h
    injection h with h'
    rw [← h']
    rfl
  | cons i rest ih =>
    intro ts out h
    unfold traverseList at h
    cases hu : Entity.update C rng i ts with
    | none =>
      rw [hu] at h
      exact absurd h (by simp)
    | some pr =>
      rw [hu] at h
      obtain ⟨ts', ev⟩ := pr
      dsimp only at h
      cases ht : traverseList C rng rest ts' with
      | none =>
        rw [ht] at h
        exact absurd h (by simp)
      | some out2 =>
        rw [ht] at h
        obtain ⟨ts'', evs, tr⟩ := out2
        dsimp only at h
        injection h with h'
        rw [← h']
        dsimp only
        simp only [List.map_cons]
        have := ih ts' (ts'', evs, tr) ht
        dsimp only at this
        rw [this]

-- the outer loop dispatches exactly the flattened bucket contents
theorem traverseBuckets_visits (C : Consts) (rng : ℕ → ℚ) :
    ∀ (bks : List (ℕ × List ℕ)) (ts : TState) (out : TState × List Event × Trace),
      traverseBuckets C rng bks ts = some out →
      out.2.2.map Prod.fst = (bks.map Prod.snd).flatten := by
  intro bks
  induction bks with
  | nil =>
    intro ts out h
    unfold traverseBuckets at h
    injection h with h'
    rw [← h']
    rfl
  | cons p rest ih =>
    intro ts out h
    obtain ⟨k, l⟩ := p
    unfold traverseBuckets at h
    cases ht : traverseList C rng l ts with
    | none =>
      rw [ht] at h
      exact absurd h (by simp)
    | some o1 =>
      rw [ht] at h
      obtain ⟨ts', evs, tr⟩ := o1
      dsimp only at h
      cases hb : traverseBuckets C rng rest ts' with
      | none =>
        rw [hb] at h
        exact absurd h (by simp)
      | some o2 =>
        rw [hb] at h
        obtain ⟨ts'', evs', tr'⟩ := o2
        dsimp only at h
        injection h with h'
        rw [← h']
        dsimp only
        rw [List.map_append]
        have h1 := traverseList_visits C rng l ts (ts', evs, tr) ht
        have h2 := ih ts' (ts'', evs', tr') hb
        dsimp only at h1 h2
        rw [h1, h2]
        rfl

/-- C1: a Scene.update call dispatches update on exactly the entities
present in the registry's buckets when the call begins, in bucket order:
the visited-id sequence of the dispatch trace is precisely the flattened
pre-tick bucket contents, whatever Spawn/Remove events the updates
produce (those are collected and applied only after the whole traversal,
so nothing spawned in the tick is updated in the same tick and nothing
removed in the tick is skipped). -/
theorem spec_c1_two_phase (C : Consts) (s : Scene) (out : Scene × Trace)
    (h : Scene.update C s = some out) :
    out.2.map Prod.fst = (s.buckets.map Prod.snd).flatten := by
  unfold Scene.update at h
  cases ht : traverseBuckets C s.rng s.buckets ⟨s.store, s.nextId, s.rix⟩ with
  | none =>
    rw [ht] at h
    exact absurd h (by simp)
  | some o =>
    rw [ht] at h
    obtain ⟨ts, evs, tr⟩ := o
    dsimp only at h
    cases ha : applyEvents ts.st evs s.buckets with
    | none =>
      rw [ha] at h
      exact absurd h (by simp)
    | some bks =>
      rw [ha] at h
      injection h with h'
      rw [← h']
      have := traverseBuckets_visits C s.rng s.buckets ⟨s.store, s.nextId, s.rix⟩
        (ts, evs, tr) ht
      dsimp only at this
      exact this

/-- Witness for C1 at a concrete scene. -/
theorem spec_c1_witness :
    ∃ out, Scene.update demoC demoScene0 = some out ∧
      out.2.map Prod.fst = (demoScene0.buckets.map Prod.snd).flatten := by
  cases hout : Scene.update demoC demoScene0 with
  | some out => exact ⟨out, rfl, spec_c1_two_phase demoC demoScene0 out hout⟩
  | none =>
    have hsome : (Scene.update demoC demoScene0).isSome = true := by decide
    rw [hout] at hsome
    exact absurd hsome (by decide)

-- structure extensionality for Branch, field by field
theorem Branch.ext8 (b1 b2 : Branch) (h1 : b1.radius = b2.radius)
    (h2 : b1.height = b2.height) (h3 : b1.parent = b2.parent)
    (h4 : b1.above = b2.above) (h5 : b1.split = b2.split)
    (h6 : b1.leaves = b2.leaves) (h7 : b1.age = b2.age)
    (h8 : b1.depth = b2.depth) : b1 = b2 := by
  cases b1
  cases b2
  dsimp only at h1 h2 h3 h4 h5 h6 h7 h8
  subst h1
  subst h2
  subst h3
  subst h4
  subst h5
  subst h6
  subst h7
  subst h8
  rfl

-- attempt_grow_wider of a leafless root with no above child: thicken,
-- and refresh the split child's radius when one exists
theorem grow_wider_root (C : Consts) (b : Branch) (st : Store)
    (hpar : b.parent = none) (hlv : b.leaves = []) (habove : b.above = none) :
    b.attempt_grow_wider C st =
      ({ b with radius := b.radius + 1/100000 },
       match b.split with
       | SplitField.child c =>
         st.setRadiusAt c ((b.radius + 1/100000) * C.BRANCH_SPLIT_RADIUS)
       | _ => st) := by
  unfold Branch.attempt_grow_wider
  dsimp only
  rw [if_pos hpar]
  have hns : ¬(({ b with radius := b.radius + 1/100000 } : Branch).radius >
      C.LEAF_GROWING_MAX_RADIUS ∧
      ({ b with radius := b.radius + 1/100000 } : Branch).leaves ≠ []) := by
    dsimp only
    rw [hlv]
    simp
  rw [if_neg hns]
  dsimp only
  rw [habove]

-- attempt_extend below height 1: pure height increment
theorem attempt_extend_grow (C : Consts) (i : ℕ) (b : Branch) (st : Store)
    (nid : ℕ) (hh : b.height < 1) :
    b.attempt_extend C i st nid =
      ({ b with height := b.height + 1/1000 }, st, nid, false) := by
  unfold Branch.attempt_extend
  rw [if_pos hh]

-- attempt_extend at height 1 with the preconditions met: the one-shot
-- extension fires
theorem attempt_extend_fire (C : Consts) (i : ℕ) (b : Branch) (st : Store)
    (nid : ℕ) (hh : ¬ b.height < 1) (ha : b.above = none)
    (hr : b.radius > C.MIN_EXTEND_RADIUS) (hd : b.depth < C.MAX_DEPTH) :
    b.attempt_extend C i st nid =
      ({ b with height := 1, above := some nid },
       st.upd nid (Entity.branch (Branch.newChild i b.depth)), nid + 1, true) := by
  unfold Branch.attempt_extend
  rw [if_neg hh, if_pos ⟨ha, hr, hd⟩]

-- attempt_split on a rejected marker at low depth: no change at all
theorem attempt_split_rejected_stay (C : Consts) (rng : ℕ → ℚ) (i : ℕ)
    (b : Branch) (st : Store) (nid rix : ℕ)
    (hs : b.split = SplitField.rejected)
    (hd : ¬ (b.depth : ℚ) > (C.MAX_DEPTH : ℚ) * (3/4)) :
    b.attempt_split C rng i st nid rix = (b, st, nid, rix, false) := by
  unfold Branch.attempt_split
  rw [hs]
  dsimp only
  rw [if_neg hd]

-- attempt_split on an owning split link: no change at all
theorem attempt_split_child_stay (C : Consts) (rng : ℕ → ℚ) (i : ℕ)
    (b : Branch) (st : Store) (nid rix : ℕ) (c : ℕ)
    (hs : b.split = SplitField.child c) :
    b.attempt_split C rng i st nid rix = (b, st, nid, rix, false) := by
  unfold Branch.attempt_split
  rw [hs]

-- attempt_split on the undecided marker below MAX_DEPTH: a single draw,
-- spawning the split child or rejecting
theorem attempt_split_draw (C : Consts) (rng : ℕ → ℚ) (i : ℕ) (b : Branch)
    (st : Store) (nid rix : ℕ) (hs : b.split = SplitField.noneYet)
    (hd : b.depth < C.MAX_DEPTH) :
    b.attempt_split C rng i st nid rix =
      if rng rix < (b.depth : ℚ) / 10 then
        ({ b with split := SplitField.child nid },
         st.upd nid (Entity.branch (Branch.newChild i b.depth)),
         nid + 1, rix + 1, true)
      else ({ b with split := SplitField.rejected }, st, nid, rix + 1, false) := by
  unfold Branch.attempt_split
  rw [hs]
  dsimp only
  rw [if_pos hd]

-- attempt_grow_leaf of a branch with no above child and nonzero radius:
-- never grows, never throws
theorem attempt_grow_leaf_no_above (C : Consts) (i : ℕ) (b : Branch)
    (st : Store) (nid : ℕ) (hr : b.radius ≠ 0) (ha : b.above = none) :
    b.attempt_grow_leaf C i st nid = some (b, st, nid, false) := by
  unfold Branch.attempt_grow_leaf
  by_cases h1 : b.radius < C.LEAF_GROWING_MAX_RADIUS
  · rw [if_pos h1, if_neg hr, if_neg (fun h => h.2 ha)]
  · rw [if_neg h1]

/-- The root branch of the end-to-end growth scenario after n ticks: the
scenario starts it at radius 0.1, height 0, depth 1 with no parent; the
root thickens by 0.00001 and (below height 1) stretches by 0.001 per
tick; sp is its split marker. -/
def rootB (n : ℕ) (sp : SplitField) : Branch :=
  { radius := 1/10 + (n : ℚ)/100000, height := (n : ℚ)/1000, parent := none,
    above := none, split := sp, leaves := [], age := 0, depth := 1 }

/-- The scenario's store: the single root branch at id 0. -/
def rootStore : Store := fun j =>
  if j = 0 then some (Entity.branch (rootB 0 SplitField.noneYet)) else none

/-- Tick the scenario: iterate the dispatched update of entity 0; the
second component is the event the last tick returned. -/
def rootIter (C : Consts) (rng : ℕ → ℚ) : ℕ → Option (TState × Option Event)
  | 0 => some (⟨rootStore, 1, 0⟩, none)
  | n + 1 =>
    match rootIter C rng n with
    | none => none
    | some (ts, _) => Entity.update C rng 0 ts

theorem rootIter_zero (C : Consts) (rng : ℕ → ℚ) :
    rootIter C rng 0 = some (⟨rootStore, 1, 0⟩, none) := rfl

theorem rootIter_succ (C : Consts) (rng : ℕ → ℚ) (n : ℕ) :
    rootIter C rng (n + 1) =
      match rootIter C rng n with
      | none => none
      | some (ts, _) => Entity.update C rng 0 ts := rfl

/-- The split marker the scenario root carries from tick 1 on: the single
random draw of tick 1 (the only draw the scenario ever makes) either
spawns the split child, which gets id 1, or rejects. -/
def rootSplit (rng : ℕ → ℚ) : SplitField :=
  if rng 0 < 1/10 then SplitField.child 1 else SplitField.rejected

/-- The next fresh id after tick 1 of the scenario. -/
def rootNid (rng : ℕ → ℚ) : ℕ := if rng 0 < 1/10 then 2 else 1

-- one dispatched tick of a leafless root below height 1 whose split
-- marker is already decided: pure growth, no event, ids untouched
theorem rootStep_mid (C : Consts) (rng : ℕ → ℚ) (st : Store) (nid rix : ℕ)
    (b : Branch) (hb : st 0 = some (Entity.branch b))
    (hpar : b.parent = none) (habove : b.above = none) (hlv : b.leaves = [])
    (hh : b.height < 1) (hrpos : (0:ℚ) < b.radius) (hd : b.depth = 1)
    (hsp : b.split = SplitField.rejected ∨ ∃ c, b.split = SplitField.child c)
    (hM : 2 ≤ C.MAX_DEPTH) :
    ∃ st' : Store,
      Entity.update C rng 0 ⟨st, nid, rix⟩ = some (⟨st', nid, rix⟩, none) ∧
      st' 0 = some (Entity.branch
        { b with radius := b.radius + 1/100000, height := b.height + 1/1000 }) := by
  rw [entity_update_branch C rng 0 ⟨st, nid, rix⟩ b hb]
  unfold Branch.update
  dsimp only
  rw [grow_wider_root C b st hpar hlv habove]
  dsimp only
  have hh1 : ({ b with radius := b.radius + 1/100000 } : Branch).height < 1 := hh
  rw [attempt_extend_grow C 0 { b with radius := b.radius + 1/100000 } _ nid hh1]
  dsimp only
  simp only [Bool.false_eq_true, if_false]
  have hrne : ({ b with radius := b.radius + 1/100000, height := b.height + 1/1000 } : Branch).radius ≠ 0 := by
    dsimp only
    intro h0
    linarith
  rcases hsp with hs | ⟨c, hs⟩
  · have hnd : ¬ ((({ b with radius := b.radius + 1/100000, height := b.height + 1/1000 } : Branch).depth : ℚ) > (C.MAX_DEPTH : ℚ) * (3/4)) := by
      dsimp only
      rw [hd]
      have h2 : (2:ℚ) ≤ (C.MAX_DEPTH : ℚ) := by exact_mod_cast hM
      push_cast
      linarith
    have hs1 : ({ b with radius := b.radius + 1/100000, height := b.height + 1/1000 } : Branch).split = SplitField.rejected := hs
    rw [attempt_split_rejected_stay C rng 0 { b with radius := b.radius + 1/100000, height := b.height + 1/1000 } _ nid rix hs1 hnd]
    dsimp only
    simp only [Bool.false_eq_true, if_false]
    rw [attempt_grow_leaf_no_above C 0 { b with radius := b.radius + 1/100000, height := b.height + 1/1000 } _ nid hrne habove]
    dsimp only
    simp only [Bool.false_eq_true, if_false]
    exact ⟨_, rfl, Store.upd_same _ _ _⟩
  · have hs1 : ({ b with radius := b.radius + 1/100000, height := b.height + 1/1000 } : Branch).split = SplitField.child c := hs
    rw [attempt_split_child_stay C rng 0 { b with radius := b.radius + 1/100000, height := b.height + 1/1000 } _ nid rix c hs1]
    dsimp only
    simp only [Bool.false_eq_true, if_false]
    rw [attempt_grow_leaf_no_above C 0 { b with radius := b.radius + 1/100000, height := b.height + 1/1000 } _ nid hrne habove]
    dsimp only
    simp only [Bool.false_eq_true, if_false]
    exact ⟨_, rfl, Store.upd_same _ _ _⟩

-- tick 1 of the scenario: the undecided split marker forces the single
-- random draw; the rest is pure growth
theorem rootStep_draw (C : Consts) (rng : ℕ → ℚ) (st : Store) (nid rix : ℕ)
    (b : Branch) (hb : st 0 = some (Entity.branch b))
    (hpar : b.parent = none) (habove : b.above = none) (hlv : b.leaves = [])
    (hh : b.height < 1) (hrpos : (0:ℚ) < b.radius) (hd : b.depth = 1)
    (hsp : b.split = SplitField.noneYet) (hM : 2 ≤ C.MAX_DEPTH) :
    ∃ st' : Store,
      Entity.update C rng 0 ⟨st, nid, rix⟩ =
        some (⟨st', if rng rix < 1/10 then nid + 1 else nid, rix + 1⟩,
          if rng rix < 1/10 then some ⟨EVENT_NEW, nid⟩ else none) ∧
      st' 0 = some (Entity.branch
        { b with radius := b.radius + 1/100000, height := b.height + 1/1000,
                 split := if rng rix < 1/10 then SplitField.child nid
                          else SplitField.rejected }) := by
  rw [entity_update_branch C rng 0 ⟨st, nid, rix⟩ b hb]
  unfold Branch.update
  dsimp only
  rw [grow_wider_root C b st hpar hlv habove]
  dsimp only
  have hh1 : ({ b with radius := b.radius + 1/100000 } : Branch).height < 1 := hh
  rw [attempt_extend_grow C 0 { b with radius := b.radius + 1/100000 } _ nid hh1]
  dsimp only
  simp only [Bool.false_eq_true, if_false]
  have hs1 : ({ b with radius := b.radius + 1/100000, height := b.height + 1/1000 } : Branch).split = SplitField.noneYet := hsp
  have hd1 : ({ b with radius := b.radius + 1/100000, height := b.height + 1/1000 } : Branch).depth < C.MAX_DEPTH := by
    dsimp only
    rw [hd]
    omega
  rw [attempt_split_draw C rng 0 { b with radius := b.radius + 1/100000, height := b.height + 1/1000 } _ nid rix hs1 hd1]
  have h10 : ((({ b with radius := b.radius + 1/100000, height := b.height + 1/1000 } : Branch).depth : ℚ) / 10) = 1/10 := by
    dsimp only
    rw [hd]
    norm_num
  rw [h10]
  by_cases hdr : rng rix < (1:ℚ)/10
  · rw [if_pos hdr]
    dsimp only
    simp only [if_true]
    rw [if_pos hdr, if_pos hdr, if_pos hdr]
    exact ⟨_, rfl, Store.upd_same _ _ _⟩
  · rw [if_neg hdr]
    dsimp only
    simp only [Bool.false_eq_true, if_false]
    have hrne : ({ b with radius := b.radius + 1/100000, height := b.height + 1/1000, split := SplitField.rejected } : Branch).radius ≠ 0 := by
      dsimp only
      intro h0
      linarith
    rw [attempt_grow_leaf_no_above C 0 { b with radius := b.radius + 1/100000, height := b.height + 1/1000, split := SplitField.rejected } _ nid hrne habove]
    dsimp only
    simp only [Bool.false_eq_true, if_false]
    rw [if_neg hdr, if_neg hdr, if_neg hdr]
    exact ⟨_, rfl, Store.upd_same _ _ _⟩

-- the spawning tick of the scenario: at height 1 with the preconditions
-- met, the extension fires, pinning the height and spawning the fresh
-- above child
theorem rootStep_fire (C : Consts) (rng : ℕ → ℚ) (st : Store) (nid rix : ℕ)
    (b : Branch) (hb : st 0 = some (Entity.branch b))
    (hpar : b.parent = none) (habove : b.above = none) (hlv : b.leaves = [])
    (hh : ¬ b.height < 1) (hrx : C.MIN_EXTEND_RADIUS < b.radius + 1/100000)
    (hd : b.depth = 1) (hM : 2 ≤ C.MAX_DEPTH) (hn : nid ≠ 0) :
    ∃ st' : Store,
      Entity.update C rng 0 ⟨st, nid, rix⟩ =
        some (⟨st', nid + 1, rix⟩, some ⟨EVENT_NEW, nid⟩) ∧
      st' 0 = some (Entity.branch
        { b with radius := b.radius + 1/100000, height := 1, above := some nid }) ∧
      st' nid = some (Entity.branch (Branch.newChild 0 1)) := by
  rw [entity_update_branch C rng 0 ⟨st, nid, rix⟩ b hb]
  unfold Branch.update
  dsimp only
  rw [grow_wider_root C b st hpar hlv habove]
  dsimp only
  have hh1 : ¬ ({ b with radius := b.radius + 1/100000 } : Branch).height < 1 := hh
  have ha1 : ({ b with radius := b.radius + 1/100000 } : Branch).above = none := habove
  have hr1 : ({ b with radius := b.radius + 1/100000 } : Branch).radius > C.MIN_EXTEND_RADIUS := hrx
  have hd1 : ({ b with radius := b.radius + 1/100000 } : Branch).depth < C.MAX_DEPTH := by
    dsimp only
    rw [hd]
    omega
  rw [attempt_extend_fire C 0 { b with radius := b.radius + 1/100000 } _ nid hh1 ha1 hr1 hd1]
  dsimp only
  simp only [if_true]
  refine ⟨_, rfl, Store.upd_same _ _ _, ?_⟩
  rw [Store.upd_other _ _ _ nid hn, Store.upd_same]
  have hdd : ({ b with radius := b.radius + 1/100000 } : Branch).depth = 1 := hd
  rw [hdd]

-- the scenario trajectory: through tick 1000 the root carries the tick
-- count in its radius and height, its above stays none, the split marker
-- is fixed by the single tick-1 draw, and ticks 2..1000 emit no event
theorem rootIter_traj (C : Consts) (rng : ℕ → ℚ) (hM : 2 ≤ C.MAX_DEPTH) :
    ∀ n, 1 ≤ n → n ≤ 1000 →
      ∃ ts : TState, ∃ ev : Option Event,
        rootIter C rng n = some (ts, ev) ∧
        ts.st 0 = some (Entity.branch (rootB n (rootSplit rng))) ∧
        ts.nid = rootNid rng ∧ ts.rix = 1 ∧
        (2 ≤ n → ev = none) := by
  intro n
  induction n with
  | zero =>
    intro h1 h2
    exact absurd h1 (by omega)
  | succ m ih =>
    intro h1 h2
    by_cases hm : m = 0
    · subst hm
      have hb0 : rootStore 0 = some (Entity.branch (rootB 0 SplitField.noneYet)) := rfl
      obtain ⟨st', heq, hst0⟩ := rootStep_draw C rng rootStore 1 0
        (rootB 0 SplitField.noneYet) hb0 rfl rfl rfl (by decide) (by decide)
        rfl rfl hM
      have hbr : ({ rootB 0 SplitField.noneYet with radius := (rootB 0 SplitField.noneYet).radius + 1/100000, height := (rootB 0 SplitField.noneYet).height + 1/1000, split := if rng 0 < 1/10 then SplitField.child 1 else SplitField.rejected } : Branch) = rootB 1 (rootSplit rng) := by
        apply Branch.ext8 <;> dsimp only [rootB, rootSplit] <;> norm_num
      refine ⟨⟨st', rootNid rng, 1⟩, if rng 0 < 1/10 then some ⟨EVENT_NEW, 1⟩ else none, ?_, ?_, rfl, rfl, fun h => absurd h (by omega)⟩
      · rw [rootIter_succ, rootIter_zero]
        dsimp only
        rw [heq]
        by_cases hdr : rng 0 < (1:ℚ)/10
        · simp [rootNid, hdr]
        · simp [rootNid, hdr]
      · dsimp only
        rw [hst0, hbr]
    · have h1m : 1 ≤ m := by omega
      obtain ⟨ts, ev, hiter, hst0, hnid, hrix, hev2⟩ := ih h1m (by omega)
      obtain ⟨st, nid0, rix0⟩ := ts
      dsimp only at hst0 hnid hrix
      subst hnid
      subst hrix
      have hsp : (rootB m (rootSplit rng)).split = SplitField.rejected ∨ ∃ c, (rootB m (rootSplit rng)).split = SplitField.child c := by
        unfold rootB rootSplit
        dsimp only
        by_cases h : rng 0 < (1:ℚ)/10
        · exact Or.inr ⟨1, by rw [if_pos h]⟩
        · exact Or.inl (by rw [if_neg h])
      have hh : (rootB m (rootSplit rng)).height < 1 := by
        unfold rootB
        dsimp only
        rw [div_lt_one (by norm_num)]
        exact_mod_cast (by omega : m < 1000)
      have hrpos : (0:ℚ) < (rootB m (rootSplit rng)).radius := by
        unfold rootB
        dsimp only
        positivity
      obtain ⟨st', heq, hst0'⟩ := rootStep_mid C rng st (rootNid rng) 1
        (rootB m (rootSplit rng)) hst0 rfl rfl rfl hh hrpos rfl hsp hM
      have hbr : ({ rootB m (rootSplit rng) with radius := (rootB m (rootSplit rng)).radius + 1/100000, height := (rootB m (rootSplit rng)).height + 1/1000 } : Branch) = rootB (m + 1) (rootSplit rng) := by
        apply Branch.ext8 <;> dsimp only [rootB] <;> push_cast <;> first | rfl | ring
      refine ⟨⟨st', rootNid rng, 1⟩, none, ?_, ?_, rfl, rfl, fun _ => rfl⟩
      · rw [rootIter_succ, hiter]
        dsimp only
        exact heq
      · dsimp only
        rw [hst0', hbr]

/-- The scenario root right after the spawning tick: radius 0.11001 (1001
root thickenings), height pinned to 1, the above link set to the fresh
child id. -/
def rootFinal (rng : ℕ → ℚ) : Branch :=
  { radius := 11001/100000, height := 1, parent := none,
    above := some (rootNid rng), split := rootSplit rng, leaves := [],
    age := 0, depth := 1 }

/-- C7 (amended): a root branch created with radius 0.1, height 0, depth 1
and ticked repeatedly grows height by exactly 0.001 per tick whatever the
random stream (the single tick-1 split draw never touches height, radius
or the above link), so height reaches 1 on tick 1000 with the above child
still none and no event on that tick; the Spawn of the above child fires
one tick LATER, on tick 1001 (the tick after height reaches 1), with the
height pinned to 1 and the child created with zero initial radius and
height (given depth/radius preconditions 2 <= MAX_DEPTH and
MIN_EXTEND_RADIUS < 0.11001). -/
theorem spec_c7_root_growth (C : Consts) (rng : ℕ → ℚ)
    (hM : 2 ≤ C.MAX_DEPTH) (hR : C.MIN_EXTEND_RADIUS < 11001/100000) :
    (∀ n, 1 ≤ n → n ≤ 1000 →
      ∃ ts : TState, ∃ ev : Option Event,
        rootIter C rng n = some (ts, ev) ∧
        ts.st 0 = some (Entity.branch (rootB n (rootSplit rng))) ∧
        (rootB n (rootSplit rng)).height = (n : ℚ) / 1000 ∧
        (rootB n (rootSplit rng)).above = none ∧
        (2 ≤ n → ev = none)) ∧
    (∃ ts : TState,
      rootIter C rng 1001 = some (ts, some ⟨EVENT_NEW, rootNid rng⟩) ∧
      ts.st 0 = some (Entity.branch (rootFinal rng)) ∧
      ts.st (rootNid rng) = some (Entity.branch (Branch.newChild 0 1)) ∧
      (rootFinal rng).height = 1 ∧
      (Branch.newChild 0 1).radius = 0 ∧ (Branch.newChild 0 1).height = 0) := by
  constructor
  · intro n h1 h2
    obtain ⟨ts, ev, hiter, hst0, hnid, hrix, hev⟩ := rootIter_traj C rng hM n h1 h2
    exact ⟨ts, ev, hiter, hst0, rfl, rfl, hev⟩
  · obtain ⟨ts, ev, hiter, hst0, hnid, hrix, hev⟩ :=
      rootIter_traj C rng hM 1000 (by omega) (by omega)
    obtain ⟨st, nid0, rix0⟩ := ts
    dsimp only at hst0 hnid hrix
    subst hnid
    subst hrix
    have hh : ¬ (rootB 1000 (rootSplit rng)).height < 1 := by
      unfold rootB
      dsimp only
      norm_num
    have hrad : (rootB 1000 (rootSplit rng)).radius + 1/100000 = 11001/100000 := by
      unfold rootB
      dsimp only
      norm_num
    have hrx : C.MIN_EXTEND_RADIUS < (rootB 1000 (rootSplit rng)).radius + 1/100000 := by
      rw [hrad]
      exact hR
    have hn : rootNid rng ≠ 0 := by
      unfold rootNid
      split <;> omega
    obtain ⟨st', heq, hst0', hstc⟩ := rootStep_fire C rng st (rootNid rng) 1
      (rootB 1000 (rootSplit rng)) hst0 rfl rfl rfl hh hrx rfl hM hn
    have hev0 : ev = none := hev (by omega)
    subst hev0
    have hbr : ({ rootB 1000 (rootSplit rng) with radius := (rootB 1000 (rootSplit rng)).radius + 1/100000, height := 1, above := some (rootNid rng) } : Branch) = rootFinal rng := by
      apply Branch.ext8 <;> dsimp only [rootB, rootFinal] <;> push_cast <;> first | rfl | norm_num
    refine ⟨⟨st', rootNid rng + 1, 1⟩, ?_, ?_, hstc, rfl, rfl, rfl⟩
    · have h1001 : (1001 : ℕ) = 1000 + 1 := rfl
      rw [h1001, rootIter_succ, hiter]
      dsimp only
      exact heq
    · dsimp only
      rw [hst0', hbr]

/-- C7 counterexample to the claimed spawn timing: at the demo constants
and the constant-1/2 stream, tick 1000 brings the root exactly to height
1 with the above child still none and NO event returned on that tick —
the Spawn the claim places on the tick height reaches 1 only fires on
tick 1001. -/
theorem spec_c7_counterexample :
    ∃ ts : TState,
      rootIter demoC demoRng 1000 = some (ts, none) ∧
      ts.st 0 = some (Entity.branch (rootB 1000 SplitField.rejected)) ∧
      (rootB 1000 SplitField.rejected).height = 1 ∧
      (rootB 1000 SplitField.rejected).above = none ∧
      ∃ ts' : TState,
        rootIter demoC demoRng 1001 = some (ts', some ⟨EVENT_NEW, 1⟩) := by
  have hM : 2 ≤ demoC.MAX_DEPTH := by decide
  obtain ⟨ts, ev, hiter, hst0, hnid, hrix, hev⟩ :=
    rootIter_traj demoC demoRng hM 1000 (by omega) (by omega)
  have hsp : rootSplit demoRng = SplitField.rejected := by decide
  have hrn : rootNid demoRng = 1 := by decide
  obtain ⟨st, nid0, rix0⟩ := ts
  dsimp only at hst0 hnid hrix
  rw [hrn] at hnid
  subst hnid
  subst hrix
  rw [hsp] at hst0
  have hev0 : ev = none := hev (by omega)
  subst hev0
  have hh : ¬ (rootB 1000 SplitField.rejected).height < 1 := by
    unfold rootB
    dsimp only
    norm_num
  have hrx : demoC.MIN_EXTEND_RADIUS < (rootB 1000 SplitField.rejected).radius + 1/100000 := by
    unfold rootB demoC
    dsimp only
    norm_num
  obtain ⟨st', heq, hst0', hstc⟩ := rootStep_fire demoC demoRng st 1 1
    (rootB 1000 SplitField.rejected) hst0 rfl rfl rfl hh hrx rfl hM (by decide)
  refine ⟨⟨st, 1, 1⟩, hiter, hst0, ?_, rfl, ⟨⟨st', 2, 1⟩, ?_⟩⟩
  · unfold rootB
    dsimp only
    norm_num
  · have h1001 : (1001 : ℕ) = 1000 + 1 := rfl
    rw [h1001, rootIter_succ, hiter]
    dsimp only
    exact heq

/-- Witness for C7 at the demo constants and the constant-1/2 stream. -/
theorem spec_c7_witness :
    2 ≤ demoC.MAX_DEPTH ∧ demoC.MIN_EXTEND_RADIUS < 11001/100000 ∧
    (∃ ts : TState,
      rootIter demoC demoRng 1001 = some (ts, some ⟨EVENT_NEW, rootNid demoRng⟩) ∧
      ts.st 0 = some (Entity.branch (rootFinal demoRng)) ∧
      ts.st (rootNid demoRng) = some (Entity.branch (Branch.newChild 0 1)) ∧
      (rootFinal demoRng).height = 1 ∧
      (Branch.newChild 0 1).radius = 0 ∧ (Branch.newChild 0 1).height = 0) :=
  ⟨by decide, by decide,
    (spec_c7_root_growth demoC demoRng (by decide) (by decide)).2⟩

/-- j's branch record links i as a child (its above or split slot). -/
def ParentLink (st : Store) (j i : ℕ) : Prop :=
  ∃ pb, st j = some (Entity.branch pb) ∧
    (pb.above = some i ∨ pb.split = SplitField.child i)

/-- The parent-before-child order invariant along a bucket list: each id
holding a branch either has a positive radius already or is linked as a
child by some id in the accumulated prefix pre. -/
def GoodFrom (st : Store) : List ℕ → List ℕ → Prop
  | _, [] => True
  | pre, i :: rest =>
    (∀ b, st i = some (Entity.branch b) →
        0 < b.radius ∨ ∃ j, j ∈ pre ∧ ParentLink st j i) ∧
    GoodFrom st (pre ++ [i]) rest

/-- How one or more dispatched updates may transform the store: entity
types below the fresh-id bound are preserved, existing parent links are
preserved, and a positive branch radius stays positive. -/
def Evolves (nid : ℕ) (st st' : Store) : Prop :=
  (∀ k, k < nid → optType (st' k) = optType (st k)) ∧
  (∀ j k, ParentLink st j k → ParentLink st' j k) ∧
  (∀ k, k < nid → ∀ bb, st k = some (Entity.branch bb) → 0 < bb.radius →
    ∀ bb', st' k = some (Entity.branch bb') → 0 < bb'.radius)

theorem optType_branch (x : Option Entity) (h : optType x = some OBJECT_BRANCH) :
    ∃ bb, x = some (Entity.branch bb) := by
  cases x with
  | none => simp [optType] at h
  | some e =>
    cases e with
    | cube => simp [optType, Entity.objectType, OBJECT_CUBE, OBJECT_BRANCH] at h
    | leaf l => simp [optType, Entity.objectType, OBJECT_LEAF, OBJECT_BRANCH] at h
    | branch b => exact ⟨b, rfl⟩

theorem optType_leaf (x : Option Entity) (h : optType x = some OBJECT_LEAF) :
    ∃ lf, x = some (Entity.leaf lf) := by
  cases x with
  | none => simp [optType] at h
  | some e =>
    cases e with
    | cube => simp [optType, Entity.objectType, OBJECT_CUBE, OBJECT_LEAF] at h
    | leaf l => exact ⟨l, rfl⟩
    | branch b => simp [optType, Entity.objectType, OBJECT_BRANCH, OBJECT_LEAF] at h

theorem optType_none (x : Option Entity) (h : optType x = none) : x = none := by
  cases x with
  | none => rfl
  | some e => simp [optType] at h

theorem Evolves_refl (nid : ℕ) (st : Store) : Evolves nid st st := by
  refine ⟨fun _ _ => rfl, fun _ _ h => h, ?_⟩
  intro k _ bb hbb hp bb' hbb'
  rw [hbb] at hbb'
  simp only [Option.some.injEq, Entity.branch.injEq] at hbb'
  rw [← hbb']
  exact hp

theorem Evolves_trans (n n' : ℕ) (st1 st2 st3 : Store) (h12 : Evolves n st1 st2)
    (h23 : Evolves n' st2 st3) (hle : n ≤ n') : Evolves n st1 st3 := by
  refine ⟨fun k hk => (h23.1 k (lt_of_lt_of_le hk hle)).trans (h12.1 k hk),
    fun j k h => h23.2.1 j k (h12.2.1 j k h), ?_⟩
  intro k hk bb hbb hpos bb' hbb'
  have hty := h12.1 k hk
  rw [hbb] at hty
  obtain ⟨bb2, hbb2⟩ := optType_branch (st2 k) (hty.trans rfl)
  have hpos2 := h12.2.2 k hk bb hbb hpos bb2 hbb2
  exact h23.2.2 k (lt_of_lt_of_le hk hle) bb2 hbb2 hpos2 bb' hbb'

theorem GoodFrom_mono (st : Store) : ∀ (l pre pre' : List ℕ),
    (∀ j, j ∈ pre → j ∈ pre') → GoodFrom st pre l → GoodFrom st pre' l := by
  intro l
  induction l with
  | nil =>
    intro pre pre' hsub h
    simp only [GoodFrom]
  | cons i rest ih =>
    intro pre pre' hsub h
    simp only [GoodFrom] at h ⊢
    refine ⟨?_, ih (pre ++ [i]) (pre' ++ [i]) ?_ h.2⟩
    · intro b hb
      rcases h.1 b hb with hpos | ⟨j, hj, hl⟩
      · exact Or.inl hpos
      · exact Or.inr ⟨j, hsub j hj, hl⟩
    · intro x hx
      rcases List.mem_append.mp hx with hx | hx
      · exact List.mem_append.mpr (Or.inl (hsub x hx))
      · exact List.mem_append.mpr (Or.inr hx)

theorem GoodFrom_of_pos (st : Store) : ∀ (l pre : List ℕ),
    (∀ k, k ∈ l → ∀ b, st k = some (Entity.branch b) → 0 < b.radius) →
    GoodFrom st pre l := by
  intro l
  induction l with
  | nil =>
    intro pre h
    simp only [GoodFrom]
  | cons i rest ih =>
    intro pre h
    simp only [GoodFrom]
    exact ⟨fun b hb => Or.inl (h i (by simp) b hb),
      ih (pre ++ [i]) (fun k hk => h k (by simp [hk]))⟩

theorem GoodFrom_evolves (st st' : Store) (nid : ℕ) (hEv : Evolves nid st st') :
    ∀ (l pre : List ℕ), (∀ k, k ∈ l → k < nid) →
      GoodFrom st pre l → GoodFrom st' pre l := by
  intro l
  induction l with
  | nil =>
    intro pre _ _
    simp only [GoodFrom]
  | cons i rest ih =>
    intro pre hbnd h
    simp only [GoodFrom] at h ⊢
    refine ⟨?_, ih (pre ++ [i]) (fun k hk => hbnd k (by simp [hk])) h.2⟩
    intro b' hb'
    have hin : i < nid := hbnd i (by simp)
    have hty := hEv.1 i hin
    rw [hb'] at hty
    obtain ⟨b0, hb0⟩ := optType_branch (st i) (hty.symm.trans rfl)
    rcases h.1 b0 hb0 with hpos | ⟨j, hj, hl⟩
    · exact Or.inl (hEv.2.2 i hin b0 hb0 hpos b' hb')
    · exact Or.inr ⟨j, hj, hEv.2.1 j i hl⟩

theorem GoodFrom_after_dispatch (st st' : Store) (i nid : ℕ)
    (hEv : Evolves nid st st')
    (hself : ∀ bb', st' i = some (Entity.branch bb') → 0 < bb'.radius)
    (hchild : ∀ k, k ≠ i → k < nid → ParentLink st i k →
       ∀ bb', st' k = some (Entity.branch bb') → 0 < bb'.radius) :
    ∀ (l pre : List ℕ), (∀ k, k ∈ l → k < nid) →
      GoodFrom st (pre ++ [i]) l → GoodFrom st' pre l := by
  intro l
  induction l with
  | nil =>
    intro pre _ _
    simp only [GoodFrom]
  | cons k rest ih =>
    intro pre hbnd h
    simp only [GoodFrom] at h ⊢
    obtain ⟨h1, h2⟩ := h
    constructor
    · intro b' hb'
      by_cases hk : k = i
      · subst hk
        exact Or.inl (hself b' hb')
      · have hkn : k < nid := hbnd k (by simp)
        have hty := hEv.1 k hkn
        rw [hb'] at hty
        obtain ⟨b0, hb0⟩ := optType_branch (st k) (hty.symm.trans rfl)
        rcases h1 b0 hb0 with hpos | ⟨j, hj, hlink⟩
        · exact Or.inl (hEv.2.2 k hkn b0 hb0 hpos b' hb')
        · rcases List.mem_append.mp hj with hjp | hji
          · exact Or.inr ⟨j, hjp, hEv.2.1 j k hlink⟩
          · have hje : j = i := by simpa using hji
            subst hje
            exact Or.inl (hchild k hk hkn hlink b' hb')
    · have h2' := GoodFrom_mono st rest ((pre ++ [i]) ++ [k]) ((pre ++ [k]) ++ [i])
        (by
          intro x hx
          simp only [List.mem_append, List.mem_singleton] at hx ⊢
          tauto) h2
      exact ih (pre ++ [k]) (fun x hx => hbnd x (by simp [hx])) h2'

theorem GoodFrom_append (st : Store) (x : ℕ) : ∀ (l pre : List ℕ),
    GoodFrom st pre l →
    (∀ b, st x = some (Entity.branch b) →
       0 < b.radius ∨ ∃ j, (j ∈ pre ∨ j ∈ l) ∧ ParentLink st j x) →
    GoodFrom st pre (l ++ [x]) := by
  intro l
  induction l with
  | nil =>
    intro pre _ hx
    simp only [List.nil_append, GoodFrom]
    refine ⟨?_, by simp only [GoodFrom]⟩
    intro b hb
    rcases hx b hb with h1 | ⟨j, hj, hl⟩
    · exact Or.inl h1
    · refine Or.inr ⟨j, ?_, hl⟩
      rcases hj with hj | hj
      · exact hj
      · simp at hj
  | cons k rest ih =>
    intro pre h hx
    simp only [List.cons_append, GoodFrom] at h ⊢
    refine ⟨h.1, ih (pre ++ [k]) h.2 ?_⟩
    intro b hb
    rcases hx b hb with h1 | ⟨j, hj, hl⟩
    · exact Or.inl h1
    · refine Or.inr ⟨j, ?_, hl⟩
      rcases hj with hj | hj
      · exact Or.inl (List.mem_append.mpr (Or.inl hj))
      · rcases List.mem_cons.mp hj with e | e
        · exact Or.inl (List.mem_append.mpr (Or.inr (by simp [e])))
        · exact Or.inr e

/-- What one dispatched Entity.update does to the traversal state: fresh
ids stay fresh, the store evolves type/link/positivity-preservingly, the
dispatched id ends positive if it holds a branch, children the dispatched
branch linked get positive radii written, any entity materialised at a
fresh id is announced by the returned Spawn event, and the event is
nothing, a Remove of a dispatched leaf, or a Spawn of a fresh child. -/
def DispatchFacts (i : ℕ) (ts ts' : TState) (ev : Option Event) : Prop :=
  ts.nid ≤ ts'.nid ∧
  (∀ j, ts'.nid ≤ j → ts'.st j = none) ∧
  Evolves ts.nid ts.st ts'.st ∧
  (∀ bb', ts'.st i = some (Entity.branch bb') → 0 < bb'.radius) ∧
  (∀ k, k ≠ i → k < ts.nid → ParentLink ts.st i k →
     ∀ bb', ts'.st k = some (Entity.branch bb') → 0 < bb'.radius) ∧
  (∀ j, ts.nid ≤ j → ∀ e : Entity, ts'.st j = some e → ev = some ⟨EVENT_NEW, j⟩) ∧
  (ev = none ∨
    (∃ lf, ev = some ⟨EVENT_DEL, i⟩ ∧ ts'.st i = some (Entity.leaf lf)) ∨
    (∃ d, ev = some ⟨EVENT_NEW, d⟩ ∧ ts.nid ≤ d ∧ d < ts'.nid ∧
      (∃ ent, ts'.st d = some ent) ∧
      (∀ bb, ts'.st d = some (Entity.branch bb) → ParentLink ts'.st i d)))

theorem dispatch_facts (C : Consts) (rng : ℕ → ℚ) (i : ℕ) (ts : TState)
    (hT : 0 < C.BRANCH_TOP_RADIUS) (hS : 0 < C.BRANCH_SPLIT_RADIUS)
    (hfresh : ∀ j, ts.nid ≤ j → ts.st j = none)
    (hposd : ∀ b, ts.st i = some (Entity.branch b) → 0 < b.radius) :
    ∃ ts' ev, Entity.update C rng i ts = some (ts', ev) ∧
      DispatchFacts i ts ts' ev := by
  cases hsi : ts.st i with
  | none =>
    refine ⟨ts, none, entity_update_missing C rng i ts hsi,
      le_refl _, hfresh, Evolves_refl _ _, ?_, ?_, ?_, Or.inl rfl⟩
    · intro bb' h
      rw [hsi] at h
      exact absurd h (by simp)
    · intro k _ _ hP
      obtain ⟨pb, hpb, _⟩ := hP
      rw [hsi] at hpb
      exact absurd hpb (by simp)
    · intro j hj e he
      rw [hfresh j hj] at he
      exact absurd he (by simp)
  | some ent =>
    have hiu : i < ts.nid := by
      by_contra hc
      push_neg at hc
      rw [hfresh i hc] at hsi
      exact absurd hsi (by simp)
    cases ent with
    | cube =>
      refine ⟨ts, none, entity_update_cube C rng i ts hsi,
        le_refl _, hfresh, Evolves_refl _ _, ?_, ?_, ?_, Or.inl rfl⟩
      · intro bb' h
        rw [hsi] at h
        exact absurd h (by simp)
      · intro k _ _ hP
        obtain ⟨pb, hpb, _⟩ := hP
        rw [hsi] at hpb
        exact absurd hpb (by simp)
      · intro j hj e he
        rw [hfresh j hj] at he
        exact absurd he (by simp)
    | leaf lf =>
      refine ⟨⟨ts.st.upd i (Entity.leaf lf.update.1), ts.nid, ts.rix⟩, _,
        entity_update_leaf C rng i ts lf hsi, le_refl _, ?_, ?_, ?_, ?_, ?_, ?_⟩
      · intro j hj
        dsimp only at hj ⊢
        rw [Store.upd_other _ _ _ j (by omega)]
        exact hfresh j hj
      · refine ⟨?_, ?_, ?_⟩
        · intro k hk
          dsimp only
          by_cases hki : k = i
          · subst hki
            rw [Store.upd_same, hsi]
            rfl
          · rw [Store.upd_other _ _ _ k hki]
        · intro j k hP
          obtain ⟨pb, hpb, hl⟩ := hP
          have hji : j ≠ i := by
            intro h
            subst h
            rw [hsi] at hpb
            exact absurd hpb (by simp)
          exact ⟨pb, by dsimp only; rw [Store.upd_other _ _ _ j hji]; exact hpb, hl⟩
        · intro k hk bb hbb hp bb' hbb'
          have hki : k ≠ i := by
            intro h
            subst h
            rw [hsi] at hbb
            exact absurd hbb (by simp)
          dsimp only at hbb'
          rw [Store.upd_other _ _ _ k hki] at hbb'
          rw [hbb] at hbb'
          simp only [Option.some.injEq, Entity.branch.injEq] at hbb'
          rw [← hbb']
          exact hp
      · intro bb' h
        dsimp only at h
        rw [Store.upd_same] at h
        exact absurd h (by simp)
      · intro k _ _ hP
        obtain ⟨pb, hpb, _⟩ := hP
        rw [hsi] at hpb
        exact absurd hpb (by simp)
      · intro j hj e he
        dsimp only at he
        rw [Store.upd_other _ _ _ j (by omega), hfresh j hj] at he
        exact absurd he (by simp)
      · by_cases hdel : lf.update.2
        · refine Or.inr (Or.inl ⟨lf.update.1, ?_, ?_⟩)
          · rw [if_pos hdel]
          · dsimp only
            rw [Store.upd_same]
        · refine Or.inl ?_
          rw [if_neg hdel]
    | branch b =>
      have hpos := hposd b hsi
      obtain ⟨stMid, bF, nidF, rixF, ev, heq, hdisj, hradF, hdepF, haboveP, hsplitP⟩ :=
        branch_update_shape C rng i b ts hpos
      have heq2 : Entity.update C rng i ts =
          some (⟨stMid.upd i (Entity.branch bF), nidF, rixF⟩, ev) := by
        rw [entity_update_branch C rng i ts b hsi]
        exact heq
      have hgwty : ∀ j, optType ((b.attempt_grow_wider C ts.st).2 j) = optType (ts.st j) :=
        fun j => grow_wider_type C b ts.st j
      have hgwnone : ∀ j, ts.st j = none → (b.attempt_grow_wider C ts.st).2 j = none := by
        intro j hj
        apply optType_none
        rw [hgwty j, hj]
        rfl
      have hgwbr := fun (j : ℕ) (bb : Branch) (hj : ts.st j = some (Entity.branch bb)) =>
        grow_wider_branch_entry C b ts.st hT hS hpos j bb hj
      have hbFpos : 0 < bF.radius := by
        rw [hradF]
        exact growRadius_pos C b hpos
      -- the two spawn shapes share bookkeeping
      have hnidle : ts.nid ≤ nidF := by
        rcases hdisj with ⟨_, h, _⟩ | ⟨_, h, _⟩ | ⟨_, h, _⟩ <;> omega
      have hmid_ne : ∀ j, j ≠ ts.nid → stMid j = (b.attempt_grow_wider C ts.st).2 j := by
        intro j hj
        rcases hdisj with ⟨h, _, _⟩ | ⟨h, _, _⟩ | ⟨h, _, _⟩ <;> rw [h]
        · rw [Store.upd_other _ _ _ j hj]
        · rw [Store.upd_other _ _ _ j hj]
      have hmid_none : ∀ j, nidF ≤ j → stMid j = none := by
        intro j hj
        have hbase : (b.attempt_grow_wider C ts.st).2 j = none :=
          hgwnone j (hfresh j (le_trans hnidle hj))
        rcases hdisj with ⟨h, hn, _⟩ | ⟨h, hn, _⟩ | ⟨h, hn, _⟩ <;> rw [h]
        · exact hbase
        · rw [Store.upd_other _ _ _ j (by omega)]
          exact hbase
        · rw [Store.upd_other _ _ _ j (by omega)]
          exact hbase
      refine ⟨⟨stMid.upd i (Entity.branch bF), nidF, rixF⟩, ev, heq2,
        hnidle, ?_, ⟨?_, ?_, ?_⟩, ?_, ?_, ?_, ?_⟩
      · -- fresh ids stay fresh
        intro j hj
        dsimp only at hj ⊢
        rw [Store.upd_other _ _ _ j (by omega)]
        exact hmid_none j hj
      · -- type preservation
        intro k hk
        dsimp only
        by_cases hki : k = i
        · subst hki
          rw [Store.upd_same, hsi]
          rfl
        · rw [Store.upd_other _ _ _ k hki, hmid_ne k (by omega)]
          exact hgwty k
      · -- parent links persist
        intro j k hP
        obtain ⟨pb, hpb, hl⟩ := hP
        by_cases hji : j = i
        · subst hji
          rw [hsi] at hpb
          simp only [Option.some.injEq, Entity.branch.injEq] at hpb
          subst hpb
          refine ⟨bF, by dsimp only; rw [Store.upd_same], ?_⟩
          rcases hl with hl | hl
          · exact Or.inl (haboveP k hl)
          · exact Or.inr (hsplitP k hl)
        · have hjn : j < ts.nid := by
            by_contra hc
            push_neg at hc
            rw [hfresh j hc] at hpb
            exact absurd hpb (by simp)
          obtain ⟨pb', hpb', f1, f2, _, _, _, _, _⟩ := hgwbr j pb hpb
          refine ⟨pb', ?_, ?_⟩
          · dsimp only
            rw [Store.upd_other _ _ _ j hji, hmid_ne j (by omega)]
            exact hpb'
          · rcases hl with hl | hl
            · exact Or.inl (by rw [f1]; exact hl)
            · exact Or.inr (by rw [f2]; exact hl)
      · -- positivity persists
        intro k hk bb hbb hp bb' hbb'
        dsimp only at hbb'
        by_cases hki : k = i
        · subst hki
          rw [Store.upd_same] at hbb'
          simp only [Option.some.injEq, Entity.branch.injEq] at hbb'
          rw [← hbb']
          exact hbFpos
        · rw [Store.upd_other _ _ _ k hki, hmid_ne k (by omega)] at hbb'
          obtain ⟨bb2, hbb2, _, _, _, _, _, _, hpp⟩ := hgwbr k bb hbb
          rw [hbb2] at hbb'
          simp only [Option.some.injEq, Entity.branch.injEq] at hbb'
          rw [← hbb']
          exact hpp hp
      · -- the dispatched id ends positive
        intro bb' h
        dsimp only at h
        rw [Store.upd_same] at h
        simp only [Option.some.injEq, Entity.branch.injEq] at h
        rw [← h]
        exact hbFpos
      · -- linked children get positive radii
        intro k hki hkn hP bb' hbb'
        obtain ⟨pb, hpb, hl⟩ := hP
        rw [hsi] at hpb
        simp only [Option.some.injEq, Entity.branch.injEq] at hpb
        subst hpb
        dsimp only at hbb'
        rw [Store.upd_other _ _ _ k hki, hmid_ne k (by omega)] at hbb'
        have hty := hgwty k
        rw [hbb'] at hty
        obtain ⟨bb0, hbb0⟩ := optType_branch (ts.st k) (hty.symm.trans rfl)
        obtain ⟨bb2, hbb2, hpp⟩ := grow_wider_child_pos C b ts.st hT hS hpos k bb0 hbb0 hl
        rw [hbb2] at hbb'
        simp only [Option.some.injEq, Entity.branch.injEq] at hbb'
        rw [← hbb']
        exact hpp
      · -- fresh entities are announced
        intro j hj e he
        dsimp only at he
        rw [Store.upd_other _ _ _ j (by omega)] at he
        rcases hdisj with ⟨h, hn, hev⟩ | ⟨h, hn, hev, _⟩ | ⟨h, hn, hev⟩
        · rw [h] at he
          rw [hgwnone j (hfresh j hj)] at he
          exact absurd he (by simp)
        · by_cases hjn : j = ts.nid
          · subst hjn
            rw [hev]
          · rw [h, Store.upd_other _ _ _ j hjn, hgwnone j (hfresh j hj)] at he
            exact absurd he (by simp)
        · by_cases hjn : j = ts.nid
          · subst hjn
            rw [hev]
          · rw [h, Store.upd_other _ _ _ j hjn, hgwnone j (hfresh j hj)] at he
            exact absurd he (by simp)
      · -- event shape
        rcases hdisj with ⟨h, hn, hev⟩ | ⟨h, hn, hev, hlink⟩ | ⟨h, hn, hev⟩
        · exact Or.inl hev
        · refine Or.inr (Or.inr ⟨ts.nid, hev, le_refl _, by dsimp only; omega, ?_, ?_⟩)
          · refine ⟨Entity.branch (Branch.newChild i b.depth), ?_⟩
            dsimp only
            rw [Store.upd_other _ _ _ ts.nid (by omega), h, Store.upd_same]
          · intro bb hbb
            refine ⟨bF, by dsimp only; rw [Store.upd_same], ?_⟩
            rcases hlink with hl | hl
            · exact Or.inl hl
            · exact Or.inr hl
        · refine Or.inr (Or.inr ⟨ts.nid, hev, le_refl _, by dsimp only; omega, ?_, ?_⟩)
          · refine ⟨Entity.leaf { age := 1, dying := false, branch := i }, ?_⟩
            dsimp only
            rw [Store.upd_other _ _ _ ts.nid (by omega), h, Store.upd_same]
          · intro bb hbb
            dsimp only at hbb
            rw [Store.upd_other _ _ _ ts.nid (by omega), h, Store.upd_same] at hbb
            exact absurd hbb (by simp)

theorem traverseList_safe (C : Consts) (rng : ℕ → ℚ)
    (hT : 0 < C.BRANCH_TOP_RADIUS) (hS : 0 < C.BRANCH_SPLIT_RADIUS) :
    ∀ (l : List ℕ) (ts : TState),
      (∀ j, ts.nid ≤ j → ts.st j = none) →
      (∀ k, k ∈ l → k < ts.nid) →
      GoodFrom ts.st [] l →
      ∃ ts' evs tr, traverseList C rng l ts = some (ts', evs, tr) ∧
        ts.nid ≤ ts'.nid ∧
        (∀ j, ts'.nid ≤ j → ts'.st j = none) ∧
        Evolves ts.nid ts.st ts'.st ∧
        (∀ k, k ∈ l → ∀ bb, ts'.st k = some (Entity.branch bb) → 0 < bb.radius) ∧
        (∀ j, ts.nid ≤ j → ∀ e : Entity, ts'.st j = some e →
           (⟨EVENT_NEW, j⟩ : Event) ∈ evs) ∧
        (∀ e, e ∈ evs →
          (∃ lf, e.type = EVENT_DEL ∧ ts'.st e.data = some (Entity.leaf lf)) ∨
          (e.type = EVENT_NEW ∧ (∃ ent, ts'.st e.data = some ent) ∧
             ∀ bb, ts'.st e.data = some (Entity.branch bb) →
             0 < bb.radius ∨ ∃ p, p ∈ l ∧ ParentLink ts'.st p e.data)) ∧
        (∀ pr : ℕ × Option Entity, pr ∈ tr → ∀ bb,
           pr.2 = some (Entity.branch bb) → 0 < bb.radius) := by
  intro l
  induction l with
  | nil =>
    intro ts hfresh hbnd hgood
    refine ⟨ts, [], [], rfl, le_refl _, hfresh, Evolves_refl _ _, ?_, ?_, ?_, ?_⟩
    · intro k hk
      exact absurd hk (by simp)
    · intro j hj e he
      rw [hfresh j hj] at he
      exact absurd he (by simp)
    · intro e he
      exact absurd he (by simp)
    · intro pr hpr
      exact absurd hpr (by simp)
  | cons i rest ih =>
    intro ts hfresh hbnd hgood
    simp only [GoodFrom] at hgood
    obtain ⟨hhead, htail⟩ := hgood
    have hposd : ∀ b, ts.st i = some (Entity.branch b) → 0 < b.radius := by
      intro b hb
      rcases hhead b hb with h | ⟨j, hj, _⟩
      · exact h
      · exact absurd hj (by simp)
    obtain ⟨ts1, ev, heq1, hD⟩ := dispatch_facts C rng i ts hT hS hfresh hposd
    obtain ⟨hDle, hDfresh, hDEv, hDself, hDchild, hDnewev, hDevshape⟩ := hD
    have hbnd1 : ∀ k, k ∈ rest → k < ts1.nid :=
      fun k hk => lt_of_lt_of_le (hbnd k (by simp [hk])) hDle
    have hgood1 : GoodFrom ts1.st [] rest :=
      GoodFrom_after_dispatch ts.st ts1.st i ts.nid hDEv hDself hDchild rest []
        (fun k hk => hbnd k (by simp [hk])) htail
    obtain ⟨ts2, evs2, tr2, heq2, hle2, hfresh2, hEv2, hpos2, hnew2, hev2, htr2⟩ :=
      ih ts1 hDfresh hbnd1 hgood1
    have hi1 : i < ts.nid := hbnd i (by simp)
    have hmemb : ∀ (evo : Option Event) (e : Event),
        e ∈ evo.toList ++ evs2 → evo = some e ∨ e ∈ evs2 := by
      intro evo e h
      cases evo with
      | none => exact Or.inr (by simpa using h)
      | some e' =>
        rcases List.mem_cons.mp (by simpa using h) with h' | h'
        · exact Or.inl (by rw [h'])
        · exact Or.inr h'
    refine ⟨ts2, ev.toList ++ evs2,
      (i, ts.st i) :: tr2, ?_, le_trans hDle hle2, hfresh2,
      Evolves_trans _ _ _ _ _ hDEv hEv2 hDle, ?_, ?_, ?_, ?_⟩
    · exact traverseList_cons_eq C rng i rest ts ts1 ev (ts2, evs2, tr2) heq1 heq2
    · intro k hk bb hbb
      rcases List.mem_cons.mp hk with he | hk2
      · subst he
        have hklt : k < ts1.nid := lt_of_lt_of_le hi1 hDle
        have hty := hEv2.1 k hklt
        rw [hbb] at hty
        obtain ⟨bb1, hbb1⟩ := optType_branch (ts1.st k) (hty.symm.trans rfl)
        exact hEv2.2.2 k hklt bb1 hbb1 (hDself bb1 hbb1) bb hbb
      · exact hpos2 k hk2 bb hbb
    · intro j hj e he
      by_cases hj1 : ts1.nid ≤ j
      · exact List.mem_append.mpr (Or.inr (hnew2 j hj1 e he))
      · push_neg at hj1
        have hty := hEv2.1 j hj1
        rw [he] at hty
        have hsome : ∃ e1, ts1.st j = some e1 := by
          cases hx : ts1.st j with
          | none =>
            rw [hx] at hty
            exact absurd hty (by simp [optType])
          | some e1 => exact ⟨e1, rfl⟩
        obtain ⟨e1, he1⟩ := hsome
        have hevn := hDnewev j hj e1 he1
        rw [hevn]
        exact List.mem_append.mpr (Or.inl (by simp))
    · intro e hemem
      rcases hmemb ev e hemem with hevs | hm2
      · rcases hDevshape with hn | ⟨lf, hevd, hlf⟩ | ⟨d, hevd, hdle, hdlt, hocc, hpar⟩
        · rw [hn] at hevs
          exact absurd hevs (by simp)
        · rw [hevd] at hevs
          injection hevs with hevs
          subst hevs
          have hty := hEv2.1 i (lt_of_lt_of_le hi1 hDle)
          rw [hlf] at hty
          obtain ⟨lf2, hlf2⟩ := optType_leaf (ts2.st i) (hty.trans rfl)
          exact Or.inl ⟨lf2, rfl, hlf2⟩
        · rw [hevd] at hevs
          injection hevs with hevs
          subst hevs
          obtain ⟨ent, hent⟩ := hocc
          have htyo := hEv2.1 d hdlt
          rw [hent] at htyo
          have hocc2 : ∃ ent2, ts2.st d = some ent2 := by
            cases hx : ts2.st d with
            | none =>
              rw [hx] at htyo
              exact absurd htyo (by simp [optType])
            | some e2 => exact ⟨e2, rfl⟩
          refine Or.inr ⟨rfl, hocc2, ?_⟩
          intro bb hbb
          have hty := hEv2.1 d hdlt
          rw [hbb] at hty
          obtain ⟨bb1, hbb1⟩ := optType_branch (ts1.st d) (hty.symm.trans rfl)
          exact Or.inr ⟨i, by simp, hEv2.2.1 i d (hpar bb1 hbb1)⟩
      · rcases hev2 e hm2 with ⟨lf, h1, h2⟩ | ⟨h1, hocc, h2⟩
        · exact Or.inl ⟨lf, h1, h2⟩
        · refine Or.inr ⟨h1, hocc, ?_⟩
          intro bb hbb
          rcases h2 bb hbb with hp | ⟨p, hpm, hpl⟩
          · exact Or.inl hp
          · exact Or.inr ⟨p, by simp [hpm], hpl⟩
    · intro pr hpr bb hbb
      rcases List.mem_cons.mp hpr with he | hpr2
      · subst he
        dsimp only at hbb
        exact hposd bb hbb
      · exact htr2 pr hpr2 bb hbb

theorem traverseBuckets_cons_eq (C : Consts) (rng : ℕ → ℚ) (k : ℕ) (l : List ℕ)
    (rest : List (ℕ × List ℕ)) (ts ts1 ts2 : TState) (evs1 evs2 : List Event)
    (tr1 tr2 : Trace)
    (h1 : traverseList C rng l ts = some (ts1, evs1, tr1))
    (h2 : traverseBuckets C rng rest ts1 = some (ts2, evs2, tr2)) :
    traverseBuckets C rng ((k, l) :: rest) ts =
      some (ts2, evs1 ++ evs2, tr1 ++ tr2) := by
  unfold traverseBuckets
  rw [h1]
  dsimp only
  rw [h2]

theorem traverseBuckets_safe (C : Consts) (rng : ℕ → ℚ)
    (hT : 0 < C.BRANCH_TOP_RADIUS) (hS : 0 < C.BRANCH_SPLIT_RADIUS) :
    ∀ (bks : List (ℕ × List ℕ)) (ts : TState),
      (∀ j, ts.nid ≤ j → ts.st j = none) →
      (∀ k l, (k, l) ∈ bks → ∀ x, x ∈ l → x < ts.nid) →
      (∀ k l, (k, l) ∈ bks → GoodFrom ts.st [] l) →
      ∃ ts' evs tr, traverseBuckets C rng bks ts = some (ts', evs, tr) ∧
        ts.nid ≤ ts'.nid ∧
        (∀ j, ts'.nid ≤ j → ts'.st j = none) ∧
        Evolves ts.nid ts.st ts'.st ∧
        (∀ k l, (k, l) ∈ bks → ∀ x, x ∈ l → ∀ bb,
           ts'.st x = some (Entity.branch bb) → 0 < bb.radius) ∧
        (∀ j, ts.nid ≤ j → ∀ e : Entity, ts'.st j = some e →
           (⟨EVENT_NEW, j⟩ : Event) ∈ evs) ∧
        (∀ e, e ∈ evs →
          (∃ lf, e.type = EVENT_DEL ∧ ts'.st e.data = some (Entity.leaf lf)) ∨
          (e.type = EVENT_NEW ∧ (∃ ent, ts'.st e.data = some ent) ∧
             ∀ bb, ts'.st e.data = some (Entity.branch bb) →
             0 < bb.radius ∨ ∃ kp lp, (kp, lp) ∈ bks ∧ ∃ p, p ∈ lp ∧
               ParentLink ts'.st p e.data)) ∧
        (∀ pr : ℕ × Option Entity, pr ∈ tr → ∀ bb,
           pr.2 = some (Entity.branch bb) → 0 < bb.radius) := by
  intro bks
  induction bks with
  | nil =>
    intro ts hfresh hbnd hgood
    refine ⟨ts, [], [], rfl, le_refl _, hfresh, Evolves_refl _ _, ?_, ?_, ?_, ?_⟩
    · intro k l hm
      exact absurd hm (by simp)
    · intro j hj e he
      rw [hfresh j hj] at he
      exact absurd he (by simp)
    · intro e he
      exact absurd he (by simp)
    · intro pr hpr
      exact absurd hpr (by simp)
  | cons hd rest ih =>
    obtain ⟨k, l⟩ := hd
    intro ts hfresh hbnd hgood
    obtain ⟨ts1, evs1, tr1, heq1, hle1, hfresh1, hEv1, hpos1, hnew1, hev1, htr1⟩ :=
      traverseList_safe C rng hT hS l ts hfresh
        (fun x hx => hbnd k l (by simp) x hx) (hgood k l (by simp))
    have hbnd1 : ∀ k' l', (k', l') ∈ rest → ∀ x, x ∈ l' → x < ts1.nid :=
      fun k' l' hm x hx => lt_of_lt_of_le (hbnd k' l' (by simp [hm]) x hx) hle1
    have hgood1 : ∀ k' l', (k', l') ∈ rest → GoodFrom ts1.st [] l' :=
      fun k' l' hm => GoodFrom_evolves ts.st ts1.st ts.nid hEv1 l' []
        (fun x hx => hbnd k' l' (by simp [hm]) x hx) (hgood k' l' (by simp [hm]))
    obtain ⟨ts2, evs2, tr2, heq2, hle2, hfresh2, hEv2, hpos2, hnew2, hev2, htr2⟩ :=
      ih ts1 hfresh1 hbnd1 hgood1
    refine ⟨ts2, evs1 ++ evs2, tr1 ++ tr2,
      traverseBuckets_cons_eq C rng k l rest ts ts1 ts2 evs1 evs2 tr1 tr2 heq1 heq2,
      le_trans hle1 hle2, hfresh2, Evolves_trans _ _ _ _ _ hEv1 hEv2 hle1,
      ?_, ?_, ?_, ?_⟩
    · intro k' l' hm x hx bb hbb
      rcases List.mem_cons.mp hm with he | hm2
      · have hkl : k' = k ∧ l' = l := by
          simpa [Prod.ext_iff] using he
        obtain ⟨hk', hl'⟩ := hkl
        subst hk'
        subst hl'
        have hxlt : x < ts1.nid := lt_of_lt_of_le (hbnd k' l' (by simp) x hx) hle1
        have hty := hEv2.1 x hxlt
        rw [hbb] at hty
        obtain ⟨bb1, hbb1⟩ := optType_branch (ts1.st x) (hty.symm.trans rfl)
        exact hEv2.2.2 x hxlt bb1 hbb1 (hpos1 x hx bb1 hbb1) bb hbb
      · exact hpos2 k' l' hm2 x hx bb hbb
    · intro j hj e he
      by_cases hj1 : ts1.nid ≤ j
      · exact List.mem_append.mpr (Or.inr (hnew2 j hj1 e he))
      · push_neg at hj1
        have hty := hEv2.1 j hj1
        rw [he] at hty
        obtain ⟨e1, he1⟩ : ∃ e1, ts1.st j = some e1 := by
          cases hx : ts1.st j with
          | none =>
            rw [hx] at hty
            exact absurd hty (by simp [optType])
          | some e1 => exact ⟨e1, rfl⟩
        exact List.mem_append.mpr (Or.inl (hnew1 j hj e1 he1))
    · intro e hemem
      rcases List.mem_append.mp hemem with hm1 | hm2
      · rcases hev1 e hm1 with ⟨lf, h1, h2⟩ | ⟨h1, hocc, h2⟩
        · have hdlt : e.data < ts1.nid := by
            by_contra hc
            push_neg at hc
            rw [hfresh1 e.data hc] at h2
            exact absurd h2 (by simp)
          have hty := hEv2.1 e.data hdlt
          rw [h2] at hty
          obtain ⟨lf2, hlf2⟩ := optType_leaf (ts2.st e.data) (hty.trans rfl)
          exact Or.inl ⟨lf2, h1, hlf2⟩
        · obtain ⟨ent, hent⟩ := hocc
          have hdlt : e.data < ts1.nid := by
            by_contra hc
            push_neg at hc
            rw [hfresh1 e.data hc] at hent
            exact absurd hent (by simp)
          have htyo := hEv2.1 e.data hdlt
          rw [hent] at htyo
          have hocc2 : ∃ ent2, ts2.st e.data = some ent2 := by
            cases hx : ts2.st e.data with
            | none =>
              rw [hx] at htyo
              exact absurd htyo (by simp [optType])
            | some e2 => exact ⟨e2, rfl⟩
          refine Or.inr ⟨h1, hocc2, ?_⟩
          intro bb hbb
          have hty := hEv2.1 e.data hdlt
          rw [hbb] at hty
          obtain ⟨bb1, hbb1⟩ := optType_branch (ts1.st e.data) (hty.symm.trans rfl)
          rcases h2 bb1 hbb1 with hp | ⟨p, hpm, hpl⟩
          · exact Or.inl (hEv2.2.2 e.data hdlt bb1 hbb1 hp bb hbb)
          · exact Or.inr ⟨k, l, by simp, p, hpm, hEv2.2.1 p e.data hpl⟩
      · rcases hev2 e hm2 with ⟨lf, h1, h2⟩ | ⟨h1, hocc, h2⟩
        · exact Or.inl ⟨lf, h1, h2⟩
        · refine Or.inr ⟨h1, hocc, ?_⟩
          intro bb hbb
          rcases h2 bb hbb with hp | ⟨kp, lp, hkp, p, hpm, hpl⟩
          · exact Or.inl hp
          · exact Or.inr ⟨kp, lp, by simp [hkp], p, hpm, hpl⟩
    · intro pr hpr bb hbb
      rcases List.mem_append.mp hpr with h | h
      · exact htr1 pr h bb hbb
      · exact htr2 pr h bb hbb

theorem appendNew_typing (st : Store) (t i0 : ℕ) (hty : optType (st i0) = some t) :
    ∀ (bks : List (ℕ × List ℕ)),
      (∀ k l, (k, l) ∈ bks → ∀ x, x ∈ l → optType (st x) = some k) →
      ∀ k l, (k, l) ∈ appendNew bks t i0 → ∀ x, x ∈ l → optType (st x) = some k := by
  intro bks
  induction bks with
  | nil =>
    intro h k l hm x hx
    simp only [appendNew, List.mem_singleton] at hm
    obtain ⟨hk, hl⟩ : k = t ∧ l = [i0] := by simpa [Prod.ext_iff] using hm
    subst hk
    subst hl
    have : x = i0 := by simpa using hx
    subst this
    exact hty
  | cons hd rest ih =>
    obtain ⟨k0, l0⟩ := hd
    intro h k l hm x hx
    simp only [appendNew] at hm
    by_cases hk0 : k0 = t
    · rw [if_pos hk0] at hm
      rcases List.mem_cons.mp hm with he | hm2
      · have hk : k = k0 := congrArg Prod.fst he
        have hl : l = l0 ++ [i0] := congrArg Prod.snd he
        rw [hl] at hx
        rcases List.mem_append.mp hx with hx2 | hx2
        · rw [hk]
          exact h k0 l0 (by simp) x hx2
        · have hxi : x = i0 := by simpa using hx2
          rw [hxi, hk, hk0]
          exact hty
      · exact h k l (by simp [hm2]) x hx
    · rw [if_neg hk0] at hm
      rcases List.mem_cons.mp hm with he | hm2
      · exact h k l (by rw [he]; exact List.mem_cons.mpr (Or.inl rfl)) x hx
      · exact ih (fun k' l' hm' x' hx' => h k' l' (by simp [hm']) x' hx') k l hm2 x hx

theorem appendNew_keys (t i0 : ℕ) : ∀ (bks : List (ℕ × List ℕ)),
    (appendNew bks t i0).map Prod.fst =
      if t ∈ bks.map Prod.fst then bks.map Prod.fst
      else bks.map Prod.fst ++ [t] := by
  intro bks
  induction bks with
  | nil => simp [appendNew]
  | cons hd rest ih =>
    obtain ⟨k0, l0⟩ := hd
    by_cases hk0 : k0 = t
    · subst hk0
      simp [appendNew]
    · have hne : ¬ t = k0 := fun h => hk0 h.symm
      by_cases hmem : t ∈ rest.map Prod.fst
      · simp [appendNew, hk0, ih, hmem, hne]
      · simp [appendNew, hk0, ih, hmem, hne]

theorem appendNew_nodup (t i0 : ℕ) (bks : List (ℕ × List ℕ))
    (h : (bks.map Prod.fst).Nodup) :
    ((appendNew bks t i0).map Prod.fst).Nodup := by
  rw [appendNew_keys]
  by_cases hmem : t ∈ bks.map Prod.fst
  · rw [if_pos hmem]
    exact h
  · rw [if_neg hmem]
    simp [List.nodup_append, h, hmem]

theorem appendNew_mem_other (t i0 : ℕ) : ∀ (bks : List (ℕ × List ℕ)) (k : ℕ)
    (l : List ℕ), (k, l) ∈ bks → k ≠ t → (k, l) ∈ appendNew bks t i0 := by
  intro bks
  induction bks with
  | nil =>
    intro k l hm _
    exact absurd hm (by simp)
  | cons hd rest ih =>
    obtain ⟨k0, l0⟩ := hd
    intro k l hm hk
    simp only [appendNew]
    by_cases hk0 : k0 = t
    · rw [if_pos hk0]
      rcases List.mem_cons.mp hm with he | hm2
      · exact absurd ((congrArg Prod.fst he).trans hk0) hk
      · exact List.mem_cons.mpr (Or.inr hm2)
    · rw [if_neg hk0]
      rcases List.mem_cons.mp hm with he | hm2
      · exact List.mem_cons.mpr (Or.inl he)
      · exact List.mem_cons.mpr (Or.inr (ih k l hm2 hk))

theorem appendNew_mem_self (t i0 : ℕ) : ∀ (bks : List (ℕ × List ℕ)) (l : List ℕ),
    (bks.map Prod.fst).Nodup → (t, l) ∈ bks →
    (t, l ++ [i0]) ∈ appendNew bks t i0 := by
  intro bks
  induction bks with
  | nil =>
    intro l _ hm
    exact absurd hm (by simp)
  | cons hd rest ih =>
    obtain ⟨k0, l0⟩ := hd
    intro l hnd hm
    simp only [List.map_cons, List.nodup_cons] at hnd
    obtain ⟨hk0nin, hndr⟩ := hnd
    simp only [appendNew]
    by_cases hk0 : k0 = t
    · rw [if_pos hk0]
      rcases List.mem_cons.mp hm with he | hm2
      · have hl : l = l0 := congrArg Prod.snd he
        exact List.mem_cons.mpr (Or.inl (by rw [hl, hk0]))
      · refine absurd (?_ : k0 ∈ rest.map Prod.fst) hk0nin
        rw [hk0]
        exact List.mem_map.mpr ⟨(t, l), hm2, rfl⟩
    · rw [if_neg hk0]
      rcases List.mem_cons.mp hm with he | hm2
      · exact absurd (congrArg Prod.fst he).symm hk0
      · exact List.mem_cons.mpr (Or.inr (ih l hndr hm2))

theorem removeFirst_subset : ∀ (l : List ℕ) (j : ℕ) (l' : List ℕ),
    removeFirst l j = some l' → ∀ x, x ∈ l' → x ∈ l := by
  intro l
  induction l with
  | nil =>
    intro j l' h
    exact absurd h (by simp [removeFirst])
  | cons y rest ih =>
    intro j l' h x hx
    simp only [removeFirst] at h
    by_cases hy : y = j
    · rw [if_pos hy] at h
      injection h with h
      subst h
      exact List.mem_cons.mpr (Or.inr hx)
    · rw [if_neg hy] at h
      cases hrf : removeFirst rest j with
      | none =>
        rw [hrf] at h
        exact absurd h (by simp)
      | some l2 =>
        rw [hrf] at h
        simp only [Option.map_some'] at h
        injection h with h
        subst h
        rcases List.mem_cons.mp hx with he | hx2
        · exact List.mem_cons.mpr (Or.inl he)
        · exact List.mem_cons.mpr (Or.inr (ih j l2 hrf x hx2))

theorem removeFromBuckets_keys : ∀ (bks : List (ℕ × List ℕ)) (t j : ℕ)
    (bks' : List (ℕ × List ℕ)), removeFromBuckets bks t j = some bks' →
    bks'.map Prod.fst = bks.map Prod.fst := by
  intro bks
  induction bks with
  | nil =>
    intro t j bks' h
    exact absurd h (by simp [removeFromBuckets])
  | cons hd rest ih =>
    obtain ⟨k0, l0⟩ := hd
    intro t j bks' h
    simp only [removeFromBuckets] at h
    by_cases hk0 : k0 = t
    · rw [if_pos hk0] at h
      cases hrf : removeFirst l0 j with
      | none =>
        rw [hrf] at h
        exact absurd h (by simp)
      | some l' =>
        rw [hrf] at h
        simp only [Option.map_some'] at h
        injection h with h
        subst h
        simp
    · rw [if_neg hk0] at h
      cases hrb : removeFromBuckets rest t j with
      | none =>
        rw [hrb] at h
        exact absurd h (by simp)
      | some r' =>
        rw [hrb] at h
        simp only [Option.map_some'] at h
        injection h with h
        subst h
        simp [ih t j r' hrb]

theorem removeFromBuckets_mem : ∀ (bks : List (ℕ × List ℕ)) (t j : ℕ)
    (bks' : List (ℕ × List ℕ)), removeFromBuckets bks t j = some bks' →
    ∀ k l', (k, l') ∈ bks' → ∃ l, (k, l) ∈ bks ∧ ∀ x, x ∈ l' → x ∈ l := by
  intro bks
  induction bks with
  | nil =>
    intro t j bks' h
    exact absurd h (by simp [removeFromBuckets])
  | cons hd rest ih =>
    obtain ⟨k0, l0⟩ := hd
    intro t j bks' h k l' hm
    simp only [removeFromBuckets] at h
    by_cases hk0 : k0 = t
    · rw [if_pos hk0] at h
      cases hrf : removeFirst l0 j with
      | none =>
        rw [hrf] at h
        exact absurd h (by simp)
      | some l2 =>
        rw [hrf] at h
        simp only [Option.map_some'] at h
        injection h with h
        subst h
        rcases List.mem_cons.mp hm with he | hm2
        · obtain ⟨h1, h2⟩ : k = k0 ∧ l' = l2 := by simpa [Prod.ext_iff] using he
          subst h1
          subst h2
          exact ⟨l0, by simp, removeFirst_subset l0 j l' hrf⟩
        · exact ⟨l', by simp [hm2], fun x hx => hx⟩
    · rw [if_neg hk0] at h
      cases hrb : removeFromBuckets rest t j with
      | none =>
        rw [hrb] at h
        exact absurd h (by simp)
      | some r' =>
        rw [hrb] at h
        simp only [Option.map_some'] at h
        injection h with h
        subst h
        rcases List.mem_cons.mp hm with he | hm2
        · obtain ⟨h1, h2⟩ : k = k0 ∧ l' = l0 := by simpa [Prod.ext_iff] using he
          subst h1
          subst h2
          exact ⟨l', by simp, fun x hx => hx⟩
        · obtain ⟨l, hl, hsub⟩ := ih t j r' hrb k l' hm2
          exact ⟨l, by simp [hl], hsub⟩

theorem removeFromBuckets_mem_other : ∀ (bks : List (ℕ × List ℕ)) (t j : ℕ)
    (bks' : List (ℕ × List ℕ)), removeFromBuckets bks t j = some bks' →
    ∀ k l, (k, l) ∈ bks → k ≠ t → (k, l) ∈ bks' := by
  intro bks
  induction bks with
  | nil =>
    intro t j bks' h
    exact absurd h (by simp [removeFromBuckets])
  | cons hd rest ih =>
    obtain ⟨k0, l0⟩ := hd
    intro t j bks' h k l hm hk
    simp only [removeFromBuckets] at h
    by_cases hk0 : k0 = t
    · rw [if_pos hk0] at h
      cases hrf : removeFirst l0 j with
      | none =>
        rw [hrf] at h
        exact absurd h (by simp)
      | some l2 =>
        rw [hrf] at h
        simp only [Option.map_some'] at h
        injection h with h
        subst h
        rcases List.mem_cons.mp hm with he | hm2
        · obtain ⟨h1, _⟩ : k = k0 ∧ l = l0 := by simpa [Prod.ext_iff] using he
          subst h1
          exact absurd hk0 hk
        · exact List.mem_cons.mpr (Or.inr hm2)
    · rw [if_neg hk0] at h
      cases hrb : removeFromBuckets rest t j with
      | none =>
        rw [hrb] at h
        exact absurd h (by simp)
      | some r' =>
        rw [hrb] at h
        simp only [Option.map_some'] at h
        injection h with h
        subst h
        rcases List.mem_cons.mp hm with he | hm2
        · exact List.mem_cons.mpr (Or.inl he)
        · exact List.mem_cons.mpr (Or.inr (ih t j r' hrb k l hm2 hk))

theorem buckets_unique : ∀ (bks : List (ℕ × List ℕ)),
    (bks.map Prod.fst).Nodup → ∀ (k : ℕ) (l1 l2 : List ℕ),
    (k, l1) ∈ bks → (k, l2) ∈ bks → l1 = l2 := by
  intro bks
  induction bks with
  | nil =>
    intro _ k l1 l2 h1
    exact absurd h1 (by simp)
  | cons hd rest ih =>
    obtain ⟨k0, l0⟩ := hd
    intro hnd k l1 l2 h1 h2
    simp only [List.map_cons, List.nodup_cons] at hnd
    obtain ⟨hk0nin, hndr⟩ := hnd
    rcases List.mem_cons.mp h1 with he1 | hm1 <;> rcases List.mem_cons.mp h2 with he2 | hm2
    · injection he1 with hk1 hl1
      injection he2 with hk2 hl2
      rw [hl1, hl2]
    · exfalso
      injection he1 with hk1 hl1
      apply hk0nin
      rw [← hk1]
      exact List.mem_map.mpr ⟨(k, l2), hm2, rfl⟩
    · exfalso
      injection he2 with hk2 hl2
      apply hk0nin
      rw [← hk2]
      exact List.mem_map.mpr ⟨(k, l1), hm1, rfl⟩
    · exact ih hndr k l1 l2 hm1 hm2

theorem applyEvents_inv (st : Store) (lB0 : List ℕ) :
    ∀ (evs : List Event) (bks bks' : List (ℕ × List ℕ)),
      applyEvents st evs bks = some bks' →
      (∀ k l, (k, l) ∈ bks → ∀ x, x ∈ l → optType (st x) = some k) →
      (bks.map Prod.fst).Nodup →
      (∀ e, e ∈ evs →
        (∃ lf, e.type = EVENT_DEL ∧ st e.data = some (Entity.leaf lf)) ∨
        (e.type = EVENT_NEW ∧ ∀ bb, st e.data = some (Entity.branch bb) →
            0 < bb.radius ∨ ∃ p, p ∈ lB0 ∧ ParentLink st p e.data)) →
      (∃ lB, (OBJECT_BRANCH, lB) ∈ bks ∧ GoodFrom st [] lB ∧
         (∀ p, p ∈ lB0 → p ∈ lB) ∧
         (∀ j b, st j = some (Entity.branch b) →
            j ∈ lB ∨ (⟨EVENT_NEW, j⟩ : Event) ∈ evs)) →
      ((∀ k l, (k, l) ∈ bks' → ∀ x, x ∈ l → optType (st x) = some k) ∧
       (bks'.map Prod.fst).Nodup ∧
       (∃ lB', (OBJECT_BRANCH, lB') ∈ bks' ∧ GoodFrom st [] lB' ∧
          (∀ j b, st j = some (Entity.branch b) → j ∈ lB'))) := by
  intro evs
  induction evs with
  | nil =>
    intro bks bks' h htyp hnd hev hB
    simp only [applyEvents] at h
    injection h with h
    subst h
    obtain ⟨lB, hlB, hgood, hsub, hcomp⟩ := hB
    exact ⟨htyp, hnd, lB, hlB, hgood,
      fun j b hj => (hcomp j b hj).resolve_right (by simp)⟩
  | cons e rest ih =>
    intro bks bks' h htyp hnd hev hB
    have hhead := hev e (by simp)
    simp only [applyEvents] at h
    rcases hhead with ⟨lf, htyd, hstd⟩ | ⟨htyn, hbrfact⟩
    · -- a Remove of a leaf: the branch bucket is untouched
      have happ : applyEvent st bks e = removeFromBuckets bks OBJECT_LEAF e.data := by
        unfold applyEvent
        rw [htyd, hstd]
        simp [EVENT_NEW, EVENT_DEL, Entity.objectType]
      cases hap : applyEvent st bks e with
      | none =>
        rw [hap] at h
        exact absurd h (by simp)
      | some bks1 =>
        rw [hap] at h
        rw [happ] at hap
        have htyp1 : ∀ k l, (k, l) ∈ bks1 → ∀ x, x ∈ l → optType (st x) = some k := by
          intro k l hm x hx
          obtain ⟨l2, hl2, hsubx⟩ := removeFromBuckets_mem bks OBJECT_LEAF e.data bks1 hap k l hm
          exact htyp k l2 hl2 x (hsubx x hx)
        have hnd1 : (bks1.map Prod.fst).Nodup := by
          rw [removeFromBuckets_keys bks OBJECT_LEAF e.data bks1 hap]
          exact hnd
        obtain ⟨lB, hlB, hgood, hsub, hcomp⟩ := hB
        refine ih bks1 bks' h htyp1 hnd1 (fun e' he' => hev e' (by simp [he']))
          ⟨lB, removeFromBuckets_mem_other bks OBJECT_LEAF e.data bks1 hap
            OBJECT_BRANCH lB hlB (by decide), hgood, hsub, ?_⟩
        intro j b hj
        rcases hcomp j b hj with hin | hin
        · exact Or.inl hin
        · rcases List.mem_cons.mp hin with he2 | hin2
          · exfalso
            have hcontra : EVENT_NEW = EVENT_DEL := (congrArg Event.type he2).trans htyd
            exact absurd hcontra (by decide)
          · exact Or.inr hin2
    · -- a Spawn: appended to the bucket of its runtime type
      cases hsd : st e.data with
      | none =>
        have hap : applyEvent st bks e = none := by
          unfold applyEvent
          rw [htyn, hsd]
          simp [EVENT_NEW]
        rw [hap] at h
        exact absurd h (by simp)
      | some ent =>
        have hap : applyEvent st bks e = some (appendNew bks ent.objectType e.data) := by
          unfold applyEvent
          rw [htyn, hsd]
          simp [EVENT_NEW]
        rw [hap] at h
        have htyd2 : optType (st e.data) = some ent.objectType := by
          rw [hsd]
          rfl
        have htyp1 := appendNew_typing st ent.objectType e.data htyd2 bks htyp
        have hnd1 := appendNew_nodup ent.objectType e.data bks hnd
        obtain ⟨lB, hlB, hgood, hsub, hcomp⟩ := hB
        by_cases hbr : ent.objectType = OBJECT_BRANCH
        · have hmem : (OBJECT_BRANCH, lB ++ [e.data]) ∈
              appendNew bks ent.objectType e.data := by
            rw [hbr]
            exact appendNew_mem_self OBJECT_BRANCH e.data bks lB hnd hlB
          have hgood1 : GoodFrom st [] (lB ++ [e.data]) := by
            refine GoodFrom_append st e.data lB [] hgood ?_
            intro b hbd
            rcases hbrfact b hbd with hp | ⟨p, hplB0, hpl⟩
            · exact Or.inl hp
            · exact Or.inr ⟨p, Or.inr (hsub p hplB0), hpl⟩
          refine ih _ bks' h htyp1 hnd1 (fun e' he' => hev e' (by simp [he']))
            ⟨lB ++ [e.data], hmem, hgood1,
             fun p hp => List.mem_append.mpr (Or.inl (hsub p hp)), ?_⟩
          intro j b hj
          rcases hcomp j b hj with hin | hin
          · exact Or.inl (List.mem_append.mpr (Or.inl hin))
          · rcases List.mem_cons.mp hin with he2 | hin2
            · have hjd : j = e.data := congrArg Event.data he2
              exact Or.inl (List.mem_append.mpr (Or.inr (by rw [hjd]; simp)))
            · exact Or.inr hin2
        · have hmem : (OBJECT_BRANCH, lB) ∈ appendNew bks ent.objectType e.data :=
            appendNew_mem_other ent.objectType e.data bks OBJECT_BRANCH lB hlB
              (fun hh => hbr hh.symm)
          refine ih _ bks' h htyp1 hnd1 (fun e' he' => hev e' (by simp [he']))
            ⟨lB, hmem, hgood, hsub, ?_⟩
          intro j b hj
          rcases hcomp j b hj with hin | hin
          · exact Or.inl hin
          · rcases List.mem_cons.mp hin with he2 | hin2
            · exfalso
              have hjd : j = e.data := congrArg Event.data he2
              rw [hjd] at hj
              rw [hj] at hsd
              injection hsd with hsd
              exact hbr (by rw [← hsd]; rfl)
            · exact Or.inr hin2

/-- The reachability invariant of the scene registry: ids at or above
nextId are unoccupied, every bucket member has the bucket's runtime
type, bucket keys are distinct, an OBJECT_BRANCH bucket exists, every
branch in the store is registered in it, and it is ordered parents
before zero-radius children (GoodFrom). -/
def SceneInv (s : Scene) : Prop :=
  (∀ j, s.nextId ≤ j → s.store j = none) ∧
  (∀ k l, (k, l) ∈ s.buckets → ∀ i, i ∈ l → optType (s.store i) = some k) ∧
  (s.buckets.map Prod.fst).Nodup ∧
  (∃ l, (OBJECT_BRANCH, l) ∈ s.buckets) ∧
  (∀ j b, s.store j = some (Entity.branch b) →
     ∀ l, (OBJECT_BRANCH, l) ∈ s.buckets → j ∈ l) ∧
  (∀ l, (OBJECT_BRANCH, l) ∈ s.buckets → GoodFrom s.store [] l)

theorem sceneInv_run (C : Consts) (s : Scene)
    (hT : 0 < C.BRANCH_TOP_RADIUS) (hS : 0 < C.BRANCH_SPLIT_RADIUS)
    (hinv : SceneInv s) :
    (∀ k l, (k, l) ∈ s.buckets → ∀ x, x ∈ l → x < s.nextId) ∧
    ∃ tsF evs trc,
      traverseBuckets C s.rng s.buckets ⟨s.store, s.nextId, s.rix⟩ =
        some (tsF, evs, trc) ∧
      s.nextId ≤ tsF.nid ∧
      (∀ j, tsF.nid ≤ j → tsF.st j = none) ∧
      Evolves s.nextId s.store tsF.st ∧
      (∀ k l, (k, l) ∈ s.buckets → ∀ x, x ∈ l → ∀ bb,
         tsF.st x = some (Entity.branch bb) → 0 < bb.radius) ∧
      (∀ j, s.nextId ≤ j → ∀ e : Entity, tsF.st j = some e →
         (⟨EVENT_NEW, j⟩ : Event) ∈ evs) ∧
      (∀ e, e ∈ evs →
        (∃ lf, e.type = EVENT_DEL ∧ tsF.st e.data = some (Entity.leaf lf)) ∨
        (e.type = EVENT_NEW ∧ (∃ ent, tsF.st e.data = some ent) ∧
           ∀ bb, tsF.st e.data = some (Entity.branch bb) →
           0 < bb.radius ∨ ∃ kp lp, (kp, lp) ∈ s.buckets ∧ ∃ p, p ∈ lp ∧
             ParentLink tsF.st p e.data)) ∧
      (∀ pr : ℕ × Option Entity, pr ∈ trc → ∀ bb,
         pr.2 = some (Entity.branch bb) → 0 < bb.radius) := by
  obtain ⟨hfresh, htyp, hnd, hex, hcomp, hgood⟩ := hinv
  have hbnd : ∀ k l, (k, l) ∈ s.buckets → ∀ x, x ∈ l → x < s.nextId := by
    intro k l hm x hx
    by_contra hc
    push_neg at hc
    have hty := htyp k l hm x hx
    rw [hfresh x hc] at hty
    exact absurd hty (by simp [optType])
  have hgood0 : ∀ k l, (k, l) ∈ s.buckets → GoodFrom s.store [] l := by
    intro k l hm
    by_cases hk : k = OBJECT_BRANCH
    · subst hk
      exact hgood l hm
    · refine GoodFrom_of_pos s.store l [] ?_
      intro x hx b hb
      exfalso
      have hty := htyp k l hm x hx
      rw [hb] at hty
      have hkb : OBJECT_BRANCH = k := by
        simpa [optType, Entity.objectType] using hty
      exact hk hkb.symm
  obtain ⟨tsF, evs, trc, heqT, h1, h2, h3, h4, h5, h6, h7⟩ :=
    traverseBuckets_safe C s.rng hT hS s.buckets ⟨s.store, s.nextId, s.rix⟩
      hfresh hbnd hgood0
  exact ⟨hbnd, tsF, evs, trc, heqT, h1, h2, h3, h4, h5, h6, h7⟩

theorem sceneInv_step (C : Consts) (hT : 0 < C.BRANCH_TOP_RADIUS)
    (hS : 0 < C.BRANCH_SPLIT_RADIUS) (s s' : Scene) (tr : Trace)
    (h : Scene.update C s = some (s', tr)) (hinv : SceneInv s) : SceneInv s' := by
  obtain ⟨hbnd, tsF, evs, trc, heqT, hnidm, hfreshF, hEvol, hposBk, hfreshEv,
    hevF, htrF⟩ := sceneInv_run C s hT hS hinv
  obtain ⟨hfresh, htyp, hnd, ⟨lB0, hlB0⟩, hcomp, hgood⟩ := hinv
  unfold Scene.update at h
  rw [heqT] at h
  dsimp only at h
  cases hap : applyEvents tsF.st evs s.buckets with
  | none =>
    rw [hap] at h
    exact absurd h (by simp)
  | some bks' =>
    rw [hap] at h
    injection h with h
    injection h with h1 h2
    have htypF : ∀ k l, (k, l) ∈ s.buckets → ∀ x, x ∈ l →
        optType (tsF.st x) = some k := by
      intro k l hm x hx
      rw [hEvol.1 x (hbnd k l hm x hx)]
      exact htyp k l hm x hx
    have hevIn : ∀ e, e ∈ evs →
        (∃ lf, e.type = EVENT_DEL ∧ tsF.st e.data = some (Entity.leaf lf)) ∨
        (e.type = EVENT_NEW ∧ ∀ bb, tsF.st e.data = some (Entity.branch bb) →
            0 < bb.radius ∨ ∃ p, p ∈ lB0 ∧ ParentLink tsF.st p e.data) := by
      intro e he
      rcases hevF e he with ⟨lf, hh1, hh2⟩ | ⟨hh1, hocc, hh2⟩
      · exact Or.inl ⟨lf, hh1, hh2⟩
      · refine Or.inr ⟨hh1, ?_⟩
        intro bb hbb
        rcases hh2 bb hbb with hp | ⟨kp, lp, hkp, p, hpm, hpl⟩
        · exact Or.inl hp
        · refine Or.inr ⟨p, ?_, hpl⟩
          obtain ⟨pb, hpb, _⟩ := hpl
          have hplt : p < s.nextId := hbnd kp lp hkp p hpm
          have hchain : (some OBJECT_BRANCH : Option ℕ) = some kp := by
            calc (some OBJECT_BRANCH : Option ℕ)
                = optType (tsF.st p) := by rw [hpb]; rfl
              _ = optType (s.store p) := hEvol.1 p hplt
              _ = some kp := htyp kp lp hkp p hpm
          have hkpb : kp = OBJECT_BRANCH := by
            injection hchain with hchain
            exact hchain.symm
          rw [hkpb] at hkp
          rw [buckets_unique s.buckets hnd OBJECT_BRANCH lp lB0 hkp hlB0] at hpm
          exact hpm
    have hBin : ∃ lB, (OBJECT_BRANCH, lB) ∈ s.buckets ∧ GoodFrom tsF.st [] lB ∧
        (∀ p, p ∈ lB0 → p ∈ lB) ∧
        (∀ j b, tsF.st j = some (Entity.branch b) →
           j ∈ lB ∨ (⟨EVENT_NEW, j⟩ : Event) ∈ evs) := by
      refine ⟨lB0, hlB0, ?_, fun p hp => hp, ?_⟩
      · refine GoodFrom_of_pos tsF.st lB0 [] ?_
        intro x hx b hb
        exact hposBk OBJECT_BRANCH lB0 hlB0 x hx b hb
      · intro j b hj
        by_cases hjn : j < s.nextId
        · have hty2 := hEvol.1 j hjn
          rw [hj] at hty2
          obtain ⟨b0, hb0⟩ := optType_branch (s.store j) (hty2.symm.trans rfl)
          exact Or.inl (hcomp j b0 hb0 lB0 hlB0)
        · push_neg at hjn
          exact Or.inr (hfreshEv j hjn (Entity.branch b) hj)
    obtain ⟨htyp', hnd', lB', hlB', hgood', hcomp'⟩ :=
      applyEvents_inv tsF.st lB0 evs s.buckets bks' hap htypF hnd hevIn hBin
    rw [← h1]
    refine ⟨?_, ?_, ?_, ⟨lB', ?_⟩, ?_, ?_⟩
    · intro j hj
      dsimp only at hj ⊢
      exact hfreshF j hj
    · intro k l hm x hx
      dsimp only at hm ⊢
      exact htyp' k l hm x hx
    · dsimp only
      exact hnd'
    · dsimp only
      exact hlB'
    · intro j b hj l hl
      dsimp only at hj hl
      rw [buckets_unique bks' hnd' OBJECT_BRANCH l lB' hl hlB']
      exact hcomp' j b hj
    · intro l hl
      dsimp only at hl ⊢
      rw [buckets_unique bks' hnd' OBJECT_BRANCH l lB' hl hlB']
      exact hgood'

theorem sceneInv_init (rng : ℕ → ℚ) : SceneInv (Scene.init rng) := by
  have hm0 : ∀ (k : ℕ) (l : List ℕ), (k, l) ∈ (Scene.init rng).buckets →
      k = OBJECT_BRANCH ∧ l = [0] := by
    intro k l hm
    have hpair : (k, l) = ((OBJECT_BRANCH, [0]) : ℕ × List ℕ) := by
      simpa [Scene.init] using hm
    injection hpair with hpk hpl
    exact ⟨hpk, hpl⟩
  refine ⟨?_, ?_, ?_, ⟨[0], ?_⟩, ?_, ?_⟩
  · intro j hj
    unfold Scene.init at hj ⊢
    dsimp only at hj ⊢
    rw [if_neg (by omega)]
  · intro k l hm x hx
    obtain ⟨hpk, hpl⟩ := hm0 k l hm
    subst hpk
    subst hpl
    have hx0 : x = 0 := by simpa using hx
    subst hx0
    unfold Scene.init
    dsimp only
    rfl
  · simp [Scene.init]
  · simp [Scene.init]
  · intro j b hj l hl
    obtain ⟨_, hpl⟩ := hm0 OBJECT_BRANCH l hl
    subst hpl
    unfold Scene.init at hj
    dsimp only at hj
    by_cases hj0 : j = 0
    · subst hj0
      simp
    · rw [if_neg hj0] at hj
      exact absurd hj (by simp)
  · intro l hl
    obtain ⟨_, hpl⟩ := hm0 OBJECT_BRANCH l hl
    subst hpl
    simp only [GoodFrom]
    refine ⟨?_, by simp only [GoodFrom]⟩
    intro b hb
    left
    unfold Scene.init at hb
    dsimp only at hb
    rw [if_pos rfl] at hb
    simp only [Option.some.injEq, Entity.branch.injEq] at hb
    rw [← hb]
    norm_num

theorem sceneInv_reaches (C : Consts) (rng : ℕ → ℚ) (s : Scene)
    (hT : 0 < C.BRANCH_TOP_RADIUS) (hS : 0 < C.BRANCH_SPLIT_RADIUS)
    (h : Reaches C (Scene.init rng) s) : SceneInv s := by
  induction h with
  | refl => exact sceneInv_init rng
  | tail hab hbc ih =>
    obtain ⟨tr, hupd⟩ := hbc
    exact sceneInv_step C hT hS _ _ tr hupd ih

/-- C10: assuming BRANCH_TOP_RADIUS, BRANCH_SPLIT_RADIUS and
LEAF_GROWING_MAX_RADIUS positive, in every scene reachable from the
initial scene by Scene.update steps the dispatch traversal never throws:
the division 1/self.radius in attempt_grow_leaf never divides by zero
(the only way the modelled traversal yields none), and every branch
observed by the dispatch trace has strictly positive radius at the moment
its own update runs — a child branch is created with radius 0 but sits
after its parent in the branch bucket, and the parent's
attempt_grow_wider assigns it a positive radius earlier in the same
traversal. -/
theorem spec_c10_no_zero_division (C : Consts) (rng : ℕ → ℚ) (s : Scene)
    (hT : 0 < C.BRANCH_TOP_RADIUS) (hS : 0 < C.BRANCH_SPLIT_RADIUS)
    (hL : 0 < C.LEAF_GROWING_MAX_RADIUS)
    (hreach : Reaches C (Scene.init rng) s) :
    traverseBuckets C s.rng s.buckets ⟨s.store, s.nextId, s.rix⟩ ≠ none ∧
    (∀ out : TState × List Event × Trace,
       traverseBuckets C s.rng s.buckets ⟨s.store, s.nextId, s.rix⟩ = some out →
       ∀ i bb, (i, some (Entity.branch bb)) ∈ out.2.2 → 0 < bb.radius) := by
  obtain ⟨hbnd, tsF, evs, trc, heqT, _, _, _, _, _, _, htrF⟩ :=
    sceneInv_run C s hT hS (sceneInv_reaches C rng s hT hS hreach)
  constructor
  · rw [heqT]
    simp
  · intro out hout i bb hmem
    rw [heqT] at hout
    injection hout with hout
    rw [← hout] at hmem
    exact htrF (i, some (Entity.branch bb)) hmem bb rfl

/-- Witness for C10 at the demo constants and the initial scene. -/
theorem spec_c10_witness :
    (0:ℚ) < demoC.BRANCH_TOP_RADIUS ∧ (0:ℚ) < demoC.BRANCH_SPLIT_RADIUS ∧
    (0:ℚ) < demoC.LEAF_GROWING_MAX_RADIUS ∧
    traverseBuckets demoC demoScene0.rng demoScene0.buckets
      ⟨demoScene0.store, demoScene0.nextId, demoScene0.rix⟩ ≠ none :=
  ⟨by decide, by decide, by decide,
    (spec_c10_no_zero_division demoC demoRng demoScene0 (by decide) (by decide)
      (by decide) Relation.ReflTransGen.refl).1⟩
